import Mathlib

/-!
Verification development for the `xboxgp_esde_sync` reconciliation tool
(`src/xboxgp_esde_sync.py`).  The Python program synchronises an Xbox Game
Pass catalog with a local store of launch scripts, images and videos:

* `fetch_ids` / `save_additional_data_to_json` fetch and extract the catalog;
* `process_entry` creates the per-title script and image artifacts;
* the video loop in `main` transcodes videos;
* the removal loops in `main` prune files whose key left the catalog;
* `SyncWorker.run` drives one pass and reports the outcome.

The definitions below are a shallow embedding of those functions: the
filesystem is a list of (path, content) pairs, HTTP and ffmpeg are oracles
passed in as functions, and each Python function becomes a Lean function of
the same shape.  All definitions are executable.
-/

namespace XSync

/-- The five directories the sync pass touches: the rom/script output
directory and the four media subdirectories of the assets directory
(`marquees/`, `covers/`, `videos/`, `fanart/` in `main`). -/
inductive Dir where
  | roms
  | marquees
  | covers
  | videos
  | fanart
deriving DecidableEq, Repr

/-- A file path: which of the five directories, plus the file name inside it
(the Python code always builds paths as `os.path.join(dir, name)`). -/
structure FPath where
  dir : Dir
  name : String
deriving DecidableEq, Repr

/-- The filesystem state: the list of existing files with their contents. -/
abbrev FS := List (FPath × String)

/-- The paths that exist on the filesystem. -/
def pathsOf (fs : FS) : List FPath := fs.map Prod.fst

/-- `os.path.exists`: does a file exist at `p`? -/
def fsHas (fs : FS) (p : FPath) : Bool := decide (p ∈ pathsOf fs)

/-- Creating a file (the code only ever writes after checking absence). -/
def writeFile (fs : FS) (p : FPath) (c : String) : FS := (p, c) :: fs

/-- `os.remove`: deleting the file at path `p`. -/
def removeFile (fs : FS) (p : FPath) : FS := fs.filter (fun f => decide (f.1 ≠ p))

/-- Python truthiness of an optional string (`if url:`): `None` and the
empty string are falsy. -/
def pyTruthy : Option String → Option String
  | none => none
  | some s => if s.data.isEmpty then none else some s

/-- Python `name.endswith(ext)` by code points. -/
def hasExt (s ext : String) : Bool :=
  decide (s.data.drop (s.data.length - ext.data.length) = ext.data)

/-- Python `name[:-n]` (for `n ≤ len(name)`): drop the last `n` characters. -/
def stripRight (s : String) (n : Nat) : String := ⟨s.data.take (s.data.length - n)⟩

/-- The key normalizer of `process_entry` and `main`:
`re.sub(r"[^a-zA-Z0-9]", "", title).upper()` — keep only ASCII
alphanumerics, then uppercase.  (`Char.isAlphanum` is exactly the class
`[a-zA-Z0-9]`, and after the filter only ASCII remains, so `Char.toUpper`
agrees with Python `str.upper`.) -/
def sanitizeTitle (t : String) : String :=
  ⟨(t.data.filter Char.isAlphanum).map Char.toUpper⟩

/-- One image object of the details response: its `ImagePurpose` and `Uri`
fields (`image.get(...)`, so either may be missing). -/
structure RawImage where
  purpose : Option String
  uri : Option String
deriving DecidableEq, Repr

/-- The image map a catalog entry carries after extraction
(`entry["Images"]`). -/
structure CatalogImages where
  logo : Option String
  poster : Option String
  boxArt : Option String
  titledHeroArt : Option String
deriving DecidableEq, Repr

/-- The empty image map (`images = {}`). -/
def CatalogImages.empty : CatalogImages := ⟨none, none, none, none⟩

/-- The image-selection loop of `save_additional_data_to_json`, with the
Python `if`/`elif` chain rendered as a conditional chain:
`Logo`/`Poster`/`BoxArt` are stored literally; `TitledHeroArt` is stored
and sets the `titled_hero_found` flag; `SuperHeroArt` is stored under the
`TitledHeroArt` slot only while the flag is still unset. -/
def extractImagesAux (acc : CatalogImages) (found : Bool) :
    List RawImage → CatalogImages
  | [] => acc
  | img :: rest =>
    if img.purpose = some "Logo" then
      extractImagesAux { acc with logo := img.uri } found rest
    else if img.purpose = some "Poster" then
      extractImagesAux { acc with poster := img.uri } found rest
    else if img.purpose = some "BoxArt" then
      extractImagesAux { acc with boxArt := img.uri } found rest
    else if img.purpose = some "TitledHeroArt" then
      extractImagesAux { acc with titledHeroArt := img.uri } true rest
    else if img.purpose = some "SuperHeroArt" ∧ found = false then
      extractImagesAux { acc with titledHeroArt := img.uri } found rest
    else
      extractImagesAux acc found rest

/-- Image extraction for one product, starting from the empty map and an
unset `titled_hero_found` flag. -/
def extractImages (imgs : List RawImage) : CatalogImages :=
  extractImagesAux CatalogImages.empty false imgs

/-- One video object of the details response (`video.get("DASH")`). -/
structure RawVideo where
  dash : Option String
deriving DecidableEq, Repr

/-- The first localized-properties object of a product. -/
structure RawLocalized where
  productTitle : Option String
  shortDescription : Option String
  developerName : Option String
  images : List RawImage
  cmsVideos : List RawVideo
deriving DecidableEq, Repr

/-- The empty localized-properties object (the `[{}]` default). -/
def RawLocalized.empty : RawLocalized := ⟨none, none, none, [], []⟩

/-- One market-properties object of a product. -/
structure RawMarket where
  originalReleaseDate : Option String
deriving DecidableEq, Repr

/-- One product of the details response. -/
structure RawProduct where
  productId : Option String
  localizedProperties : List RawLocalized
  marketProperties : List RawMarket
deriving DecidableEq, Repr

/-- One extracted catalog entry, as persisted to `additional_data.json`. -/
structure CatalogEntry where
  productId : Option String
  productTitle : Option String
  shortDescription : Option String
  developerName : Option String
  originalReleaseDate : Option String
  images : CatalogImages
  dash : Option String
deriving DecidableEq, Repr

/-- The per-product body of the extraction loop in
`save_additional_data_to_json`: first localized/market object (defaulting
to `{}`), the image map, and the first truthy `DASH` manifest URI. -/
def extractEntry (item : RawProduct) : CatalogEntry :=
  let loc := item.localizedProperties.headD RawLocalized.empty
  { productId := item.productId
    productTitle := loc.productTitle
    shortDescription := loc.shortDescription
    developerName := loc.developerName
    originalReleaseDate := (item.marketProperties.headD ⟨none⟩).originalReleaseDate
    images := extractImages loc.images
    dash := loc.cmsVideos.findSome? (fun v => pyTruthy v.dash) }

/-- `entry.get("ProductTitle", "Unknown")` followed by sanitization: the
artifact key of a catalog entry.  Note that the `"Unknown"` default applies
only when the `ProductTitle` field is absent, and is itself sanitized. -/
def entryKey (e : CatalogEntry) : String := sanitizeTitle (e.productTitle.getD "Unknown")

/-- `fetch_ids`: the discovery request yields items each optionally carrying
an `id`; the ids are joined with commas.  A request failure propagates. -/
def fetchIds (discovery : Except String (List (Option String))) :
    Except String String :=
  match discovery with
  | .error e => .error e
  | .ok items => .ok (String.intercalate "," (items.filterMap id))

/-- The catalog-acquisition prefix of `main` (lines 217–227): `check_ffmpeg`,
`fetch_ids`, `save_additional_data_to_json`, then loading the file just
written.  `priorAdditionalData` is the content of `additional_data.json`
from an earlier pass: the source never reads it before overwriting it and
stores no fetch timestamp anywhere, so the parameter is unused.  The
returned `Bool` records whether the network was contacted. -/
def catalogStage (ffmpegOk : Bool)
    (discovery : Except String (List (Option String)))
    (details : String → Except String (List RawProduct))
    (priorAdditionalData : Option (List CatalogEntry)) :
    Except String (List CatalogEntry) × Bool :=
  if !ffmpegOk then
    (.error "ffmpeg is not installed or not in PATH. Please install ffmpeg to proceed.",
     false)
  else
    match fetchIds discovery with
    | .error e => (.error e, true)
    | .ok ids =>
      match details ids with
      | .error e => (.error e, true)
      | .ok products => (.ok (products.map extractEntry), true)

/-- The external world seen by one pass: the HTTP status and body for each
URL (the shared `aiohttp` session), and for each DASH manifest whether
`ffmpeg` succeeds and what it produces.  Fixed for the duration of a pass
(and, for the idempotence property, across two passes against an unchanged
catalog and unchanged network). -/
structure World where
  status : String → Nat
  body : String → String
  transcodeOk : String → Bool
  tbody : String → String

/-- The `files_created` counter dictionary of `main`. -/
structure Created where
  sh : Nat
  logo : Nat
  poster : Nat
  video : Nat
  fanart : Nat
deriving DecidableEq, Repr

/-- The `files_removed` counter dictionary of `main` (note: it has no
`video` entry). -/
structure Removed where
  sh : Nat
  logo : Nat
  poster : Nat
  fanart : Nat
deriving DecidableEq, Repr

/-- The mutable state of one pass: the filesystem, `valid_titles`, the two
counter dictionaries, and — as instrumentation not present in the source —
`writes`, the number of file-creation events that actually happened (the
source's `files_created` is incremented in `process_entry` even when
`download_image` wrote nothing; `writes` counts real writes). -/
structure SyncState where
  fs : FS
  validTitles : List String
  filesCreated : Created
  filesRemoved : Removed
  writes : Nat

/-- The state at the start of a pass over filesystem `fs`. -/
def initState (fs : FS) : SyncState :=
  { fs := fs
    validTitles := []
    filesCreated := ⟨0, 0, 0, 0, 0⟩
    filesRemoved := ⟨0, 0, 0, 0⟩
    writes := 0 }

/-- Protocol-relative URL normalization in `download_image`:
`if url.startswith("//"): url = "https:" + url`. -/
def normalizeUrl (u : String) : String :=
  if u.data.take 2 = ['/', '/'] then "https:" ++ u else u

/-- `download_image`: fetch the (normalized) URL; write the body to `path`
only when the status is 200, otherwise do nothing.  Returns the new
filesystem and how many files were written (0 or 1). -/
def downloadImage (w : World) (url : String) (p : FPath) (fs : FS) : FS × Nat :=
  let u := normalizeUrl url
  if w.status u = 200 then (writeFile fs p (w.body u), 1) else (fs, 0)

/-- The two-line launch-script template written by `process_entry`. -/
def scriptContent (key : String) : String :=
  "#!/bin/bash\n" ++
  "flatpak run --socket=wayland --env=ELECTRON_ENABLE_WAYLAND=1 io.github.unknownskl.greenlight --fullscreen --connect=\x27xcloud_" ++
  key ++ "\x27\n"

/-- `valid_titles.add(sanitized_title)` at the top of `process_entry`. -/
def addValid (key : String) (st : SyncState) : SyncState :=
  { st with validTitles := key :: st.validTitles }

/-- The launch-script block of `process_entry`: create `<key>.sh` when
absent and count it. -/
def shSlot (key : String) (st : SyncState) : SyncState :=
  let p : FPath := ⟨Dir.roms, key ++ ".sh"⟩
  if fsHas st.fs p then st
  else
    { st with
      fs := writeFile st.fs p (scriptContent key)
      filesCreated := { st.filesCreated with sh := st.filesCreated.sh + 1 }
      writes := st.writes + 1 }

/-- The logo block of `process_entry`: when `<key>.png` is absent from the
marquee directory, download the Logo URI, or fall back to the Poster URI;
the `logo` counter is incremented after the download call returns, whether
or not it wrote a file. -/
def logoSlot (w : World) (e : CatalogEntry) (key : String) (st : SyncState) :
    SyncState :=
  let p : FPath := ⟨Dir.marquees, key ++ ".png"⟩
  if fsHas st.fs p then st
  else
    match pyTruthy e.images.logo with
    | some u =>
        let r := downloadImage w u p st.fs
        { st with
          fs := r.1
          filesCreated := { st.filesCreated with logo := st.filesCreated.logo + 1 }
          writes := st.writes + r.2 }
    | none =>
        match pyTruthy e.images.poster with
        | some u =>
            let r := downloadImage w u p st.fs
            { st with
              fs := r.1
              filesCreated := { st.filesCreated with logo := st.filesCreated.logo + 1 }
              writes := st.writes + r.2 }
        | none => st

/-- The poster block of `process_entry`. -/
def posterSlot (w : World) (e : CatalogEntry) (key : String) (st : SyncState) :
    SyncState :=
  match pyTruthy e.images.poster with
  | some u =>
      let p : FPath := ⟨Dir.covers, key ++ ".png"⟩
      if fsHas st.fs p then st
      else
        let r := downloadImage w u p st.fs
        { st with
          fs := r.1
          filesCreated := { st.filesCreated with poster := st.filesCreated.poster + 1 }
          writes := st.writes + r.2 }
  | none => st

/-- The fanart block of `process_entry`, driven by the `TitledHeroArt`
slot of the image map. -/
def fanartSlot (w : World) (e : CatalogEntry) (key : String) (st : SyncState) :
    SyncState :=
  match pyTruthy e.images.titledHeroArt with
  | some u =>
      let p : FPath := ⟨Dir.fanart, key ++ ".png"⟩
      if fsHas st.fs p then st
      else
        let r := downloadImage w u p st.fs
        { st with
          fs := r.1
          filesCreated := { st.filesCreated with fanart := st.filesCreated.fanart + 1 }
          writes := st.writes + r.2 }
  | none => st

/-- `process_entry` for one catalog entry: record the key in
`valid_titles`, then the script, logo, poster and fanart blocks in source
order.  (The asyncio event loop interleaves entries only at `await`
points; since every write targets a path derived from the entry's own key
and is guarded by an existence check, the sequential composition used here
reaches the same filesystem states.) -/
def processEntry (w : World) (st : SyncState) (e : CatalogEntry) : SyncState :=
  let key := entryKey e
  fanartSlot w e key (posterSlot w e key (logoSlot w e key (shSlot key (addValid key st))))

/-- One iteration of the synchronous video loop in `main`: transcode the
DASH manifest to `<key>.mp4` when the file is absent; the `video` counter
is incremented only when `download_video` reports success. -/
def processVideo (w : World) (st : SyncState) (e : CatalogEntry) : SyncState :=
  match pyTruthy e.dash with
  | some u =>
      let key := entryKey e
      let p : FPath := ⟨Dir.videos, key ++ ".mp4"⟩
      if fsHas st.fs p then st
      else if w.transcodeOk u then
        { st with
          fs := writeFile st.fs p (w.tbody u)
          filesCreated := { st.filesCreated with video := st.filesCreated.video + 1 }
          writes := st.writes + 1 }
      else st
  | none => st

/-- `os.listdir` restricted to one directory: the names of the files in it. -/
def listdir (fs : FS) (d : Dir) : List String :=
  fs.filterMap (fun f => if f.1.dir = d then some f.1.name else none)

/-- The orphan test applied to a file name by the removal loops of `main`:
the name carries the expected extension and the key it strips to is not in
`valid_titles`. -/
def orphanName (valid : List String) (ext : String) (name : String) : Bool :=
  hasExt name ext && !(decide (stripRight name ext.data.length ∈ valid))

/-- One iteration of a removal loop: remove an orphaned file and count the
removal, leave everything else alone. -/
def pruneStep (valid : List String) (d : Dir) (ext : String)
    (acc : FS × Nat) (name : String) : FS × Nat :=
  if orphanName valid ext name then (removeFile acc.1 ⟨d, name⟩, acc.2 + 1) else acc

/-- One removal loop of `main`: snapshot the directory listing
(`os.listdir` is evaluated once, up front), then remove every orphaned
file. -/
def pruneDirFs (valid : List String) (d : Dir) (ext : String) (fs : FS) :
    FS × Nat :=
  (listdir fs d).foldl (pruneStep valid d ext) (fs, 0)

/-- The four removal loops of `main`, in source order: `.sh` files of the
script directory, then `.png` files of the marquee, cover and fanart
directories.  The videos directory has no removal loop. -/
def pruneStage (valid : List String) (st : SyncState) : SyncState :=
  let r1 := pruneDirFs valid Dir.roms ".sh" st.fs
  let r2 := pruneDirFs valid Dir.marquees ".png" r1.1
  let r3 := pruneDirFs valid Dir.covers ".png" r2.1
  let r4 := pruneDirFs valid Dir.fanart ".png" r3.1
  { st with
    fs := r4.1
    filesRemoved :=
      { sh := st.filesRemoved.sh + r1.2
        logo := st.filesRemoved.logo + r2.2
        poster := st.filesRemoved.poster + r3.2
        fanart := st.filesRemoved.fanart + r4.2 } }

/-- One full reconciliation pass of `main` over an already-acquired catalog:
the concurrent `process_entry` stage, the synchronous video stage, then
pruning against the `valid_titles` built during the pass.  (Gamelist
generation writes only `gamelist.xml` in the separate gamelist directory
and does not touch artifact state.) -/
def runPass (w : World) (entries : List CatalogEntry) (fs0 : FS) : SyncState :=
  let st := entries.foldl (processVideo w) (entries.foldl (processEntry w) (initState fs0))
  pruneStage st.validTitles st

/-- `w.status (normalizeUrl u) = 200`: the download of `u` would succeed. -/
def urlOk (w : World) (u : String) : Prop := w.status (normalizeUrl u) = 200

/-- The URL the logo block actually downloads: the Logo URI, or the Poster
URI when the Logo URI is falsy. -/
def effLogoUrl (e : CatalogEntry) : Option String :=
  match pyTruthy e.images.logo with
  | some u => some u
  | none => pyTruthy e.images.poster

/-- `imgSlotOk w e p`: `process_entry`, run for entry `e`, has a task whose
destination is `p` and whose source succeeds — one disjunct per slot of
`process_entry` (script, logo with poster fallback, poster, fanart). -/
def imgSlotOk (w : World) (e : CatalogEntry) (p : FPath) : Prop :=
  p = ⟨Dir.roms, entryKey e ++ ".sh"⟩ ∨
  (∃ u, effLogoUrl e = some u ∧ urlOk w u ∧ p = ⟨Dir.marquees, entryKey e ++ ".png"⟩) ∨
  (∃ u, pyTruthy e.images.poster = some u ∧ urlOk w u ∧ p = ⟨Dir.covers, entryKey e ++ ".png"⟩) ∨
  (∃ u, pyTruthy e.images.titledHeroArt = some u ∧ urlOk w u ∧ p = ⟨Dir.fanart, entryKey e ++ ".png"⟩)

/-- `vidSlotOk w e p`: the video loop, run for entry `e`, produces `p`. -/
def vidSlotOk (w : World) (e : CatalogEntry) (p : FPath) : Prop :=
  ∃ u, pyTruthy e.dash = some u ∧ w.transcodeOk u = true
    ∧ p = ⟨Dir.videos, entryKey e ++ ".mp4"⟩

/-- `slotOk w e p`: the pass, run for entry `e`, has a production task whose
destination is `p` and whose source succeeds — so `p` is guaranteed to
exist afterwards. -/
def slotOk (w : World) (e : CatalogEntry) (p : FPath) : Prop :=
  imgSlotOk w e p ∨ vidSlotOk w e p

/-- The result of calling a Python function: it either returns a value or
raises an exception carrying a message. -/
inductive PyResult (α : Type) where
  | returned (a : α)
  | raised (msg : String)
deriving DecidableEq, Repr

/-- The body of `async def main(...)` viewed through its `try/except`
wrapper: the `Except` argument is the work of the pass (catalog acquisition
followed by reconciliation; an `.error` is an exception reaching line 330).
`main` catches every exception, stores `str(e)` in the local
`error_message` — which is only logged, never returned or re-raised — and
returns `None` either way.  The returned `PyResult` is therefore always
`returned`, carrying the internal `error_message` for inspection. -/
def mainRun (body : Except String SyncState) : PyResult (Option String) :=
  match body with
  | .ok _ => .returned none
  | .error e => .returned (some e)

/-- The body passed to `mainRun` for a concrete pass: acquire the catalog
(lines 217–227), then reconcile. -/
def mainBody (ffmpegOk : Bool)
    (discovery : Except String (List (Option String)))
    (details : String → Except String (List RawProduct))
    (prior : Option (List CatalogEntry)) (w : World) (fs0 : FS) :
    Except String SyncState :=
  match (catalogStage ffmpegOk discovery details prior).1 with
  | .error e => .error e
  | .ok entries => .ok (runPass w entries fs0)

/-- The outcome `SyncWorker.run` delivers to the GUI: the `finished` signal,
or the `error` signal with a message. -/
inductive Outcome where
  | finished
  | error (msg : String)
deriving DecidableEq, Repr

/-- `SyncWorker.run`: run `asyncio.run(main(...))`; if it raises, emit
`error(str(e))`, otherwise fall through to `finished.emit()`.  Since
`mainRun` always returns (its `except Exception` clause swallows every
failure of the body), the `error` branch is dead code. -/
def syncWorkerRun (body : Except String SyncState) : Outcome :=
  match mainRun body with
  | .returned _ => Outcome.finished
  | .raised msg => Outcome.error msg

/-- The scheduling state of the download stage launched by `asyncio.gather`
(lines 259–265): how many download tasks have not yet issued their request,
how many requests are in flight, and how many tasks are done. -/
structure Sched where
  pending : Nat
  inFlight : Nat
  done : Nat
deriving DecidableEq, Repr

/-- One scheduler step of the gather-based download stage.  `start` moves a
pending task's request in flight — the source guards this with no
semaphore, worker pool, or any other concurrency ceiling — and `finish`
completes an in-flight request. -/
inductive SchedStep : Sched → Sched → Prop where
  | start (p i d : Nat) : SchedStep ⟨p + 1, i, d⟩ ⟨p, i + 1, d⟩
  | finish (p i d : Nat) : SchedStep ⟨p, i + 1, d⟩ ⟨p, i, d + 1⟩

/-- Reachability of one scheduler state from another. -/
inductive SchedReach : Sched → Sched → Prop where
  | refl (s : Sched) : SchedReach s s
  | step {a b c : Sched} : SchedReach a b → SchedStep b c → SchedReach a c

/-- `killed ns p`: the path `p` is removed by a removal loop over the
directory listing `ns`. -/
def killed (valid : List String) (d : Dir) (ext : String)
    (ns : List String) (p : FPath) : Bool :=
  ns.any (fun n => orphanName valid ext n && decide (p = FPath.mk d n))

/-- A file kept by one removal loop: not in the loop's directory with the
orphan test passing. -/
def keepFile (valid : List String) (d : Dir) (ext : String) (f : FPath × String) : Bool :=
  !(decide (f.1.dir = d) && orphanName valid ext f.1.name)

/-- The orphan predicate of the whole pruning stage: the file sits in one
of the four swept directories, carries that directory's extension, and its
stripped key is not in `valid_titles`. -/
def isOrphanFile (valid : List String) (p : FPath) : Prop :=
  (p.dir = Dir.roms ∧ orphanName valid ".sh" p.name = true)
  ∨ (p.dir = Dir.marquees ∧ orphanName valid ".png" p.name = true)
  ∨ (p.dir = Dir.covers ∧ orphanName valid ".png" p.name = true)
  ∨ (p.dir = Dir.fanart ∧ orphanName valid ".png" p.name = true)

/-- A concrete catalog payload standing for the content of
`additional_data.json` left by an earlier pass. -/
def cachedCatalog : List CatalogEntry :=
  [{ productId := some "cached"
     productTitle := some "Cached Game"
     shortDescription := none
     developerName := none
     originalReleaseDate := none
     images := CatalogImages.empty
     dash := none }]

/-- A concrete discovery response: one item carrying an id. -/
def demoDiscovery : Except String (List (Option String)) := .ok [some "id1"]

/-- A concrete details-endpoint product, different from the cached entry. -/
def demoProduct : RawProduct :=
  { productId := some "fresh"
    localizedProperties := [{ productTitle := some "Fresh Game"
                              shortDescription := none
                              developerName := none
                              images := []
                              cmsVideos := [] }]
    marketProperties := [] }

/-- A concrete details endpoint returning `demoProduct`. -/
def demoDetails : String → Except String (List RawProduct) := fun _ => .ok [demoProduct]

/-- A world in which every HTTP request answers 404 and every transcode
fails. -/
def allFail : World := ⟨fun _ => 404, fun _ => "", fun _ => false, fun _ => ""⟩

/-- A world in which exactly one image URL answers 404 and everything else
succeeds. -/
def mixedWorld : World :=
  ⟨fun u => if u = "http://bad/404.png" then 404 else 200,
   fun u => "img:" ++ u,
   fun _ => true,
   fun u => "vid:" ++ u⟩

/-- A catalog entry whose poster URI is the failing URL of `mixedWorld`. -/
def entryA : CatalogEntry :=
  { productId := some "pa"
    productTitle := some "A"
    shortDescription := none
    developerName := none
    originalReleaseDate := none
    images := { logo := none
                poster := some "http://bad/404.png"
                boxArt := none
                titledHeroArt := none }
    dash := none }

/-- A catalog entry whose poster URI succeeds in `mixedWorld`. -/
def entryB : CatalogEntry :=
  { productId := some "pb"
    productTitle := some "B"
    shortDescription := none
    developerName := none
    originalReleaseDate := none
    images := { logo := none
                poster := some "http://ok/B.png"
                boxArt := none
                titledHeroArt := none }
    dash := none }

/-- A catalog entry with no logo but a protocol-relative poster URI. -/
def entryC : CatalogEntry :=
  { productId := some "pc"
    productTitle := some "C"
    shortDescription := none
    developerName := none
    originalReleaseDate := none
    images := { logo := none
                poster := some "//img/c.png"
                boxArt := none
                titledHeroArt := none }
    dash := none }

/-- A `SuperHeroArt` image appearing before a `TitledHeroArt` image. -/
def superFirstImg : RawImage := ⟨some "SuperHeroArt", some "uri-super"⟩

/-- The `TitledHeroArt` image appearing after `superFirstImg`. -/
def titledSecondImg : RawImage := ⟨some "TitledHeroArt", some "uri-titled"⟩

/-- A catalog entry whose only artwork is a logo URI. -/
def logoOnlyEntry : CatalogEntry :=
  { productId := some "p1"
    productTitle := some "A"
    shortDescription := none
    developerName := none
    originalReleaseDate := none
    images := { logo := some "http://x/l.png"
                poster := none
                boxArt := none
                titledHeroArt := none }
    dash := none }

/-- Stripping the extension undoes appending it (Python
`(s + ext)[:-len(ext)] == s`). -/
theorem stripRight_append (s ext : String) : stripRight (s ++ ext) ext.data.length = s := by
  show String.mk (((s ++ ext).data).take ((s ++ ext).data.length - ext.data.length)) = s
  rw [String.data_append, List.length_append, Nat.add_sub_cancel, List.take_left]

/-- A name built by appending the extension passes the extension test. -/
theorem hasExt_append (s ext : String) : hasExt (s ++ ext) ext = true := by
  unfold hasExt
  rw [String.data_append, List.length_append, Nat.add_sub_cancel, List.drop_left]
  simp

/-- A name whose stripped key is in `valid` is not an orphan. -/
theorem orphanName_append_valid {valid : List String} {s : String} (ext : String)
    (h : s ∈ valid) : orphanName valid ext (s ++ ext) = false := by
  unfold orphanName
  rw [stripRight_append]
  simp [h]

/-- `fsHas` is filesystem membership. -/
theorem fsHas_iff {fs : FS} {p : FPath} : fsHas fs p = true ↔ p ∈ pathsOf fs := by
  simp [fsHas]

/-- A path exists iff some file with that path exists. -/
theorem mem_pathsOf {fs : FS} {p : FPath} : p ∈ pathsOf fs ↔ ∃ c, (p, c) ∈ fs := by
  constructor
  · intro h
    obtain ⟨⟨a, b⟩, hf, he⟩ := List.mem_map.mp h
    subst he
    exact ⟨b, hf⟩
  · rintro ⟨c, hc⟩
    exact List.mem_map.mpr ⟨(p, c), hc, rfl⟩

/-- `download_image` never removes files. -/
theorem downloadImage_sub (w : World) (u : String) (p : FPath) (fs : FS) :
    fs ⊆ (downloadImage w u p fs).1 := by
  intro f hf
  unfold downloadImage
  dsimp only
  split
  · exact List.mem_cons_of_mem _ hf
  · exact hf

/-- A successful `download_image` writes the response body to the
destination. -/
theorem downloadImage_creates {w : World} {u : String} (p : FPath) (fs : FS)
    (h : urlOk w u) :
    (p, w.body (normalizeUrl u)) ∈ (downloadImage w u p fs).1 := by
  unfold urlOk at h
  unfold downloadImage
  dsimp only
  rw [if_pos h]
  exact List.mem_cons_self _ _

/-- A non-200 `download_image` writes nothing and changes nothing. -/
theorem downloadImage_fail {w : World} {u : String} (p : FPath) (fs : FS)
    (h : ¬ urlOk w u) :
    downloadImage w u p fs = (fs, 0) := by
  unfold urlOk at h
  unfold downloadImage
  dsimp only
  rw [if_neg h]

/-- Paths after `download_image`: old paths, or the destination when the
download succeeded. -/
theorem pathsOf_downloadImage {w : World} {u : String} {p : FPath} {fs : FS} {q : FPath}
    (h : q ∈ pathsOf (downloadImage w u p fs).1) :
    q ∈ pathsOf fs ∨ (urlOk w u ∧ q = p) := by
  by_cases hok : urlOk w u
  · unfold downloadImage at h
    dsimp only at h
    rw [if_pos (show w.status (normalizeUrl u) = 200 from hok)] at h
    rcases List.mem_map.mp h with ⟨f, hf, he⟩
    rcases List.mem_cons.mp hf with h1 | h1
    · subst h1
      exact Or.inr ⟨hok, he.symm⟩
    · exact Or.inl (he ▸ List.mem_map.mpr ⟨f, h1, rfl⟩)
  · rw [downloadImage_fail p fs hok] at h
    exact Or.inl h

/-- The script slot never removes files. -/
theorem shSlot_sub (key : String) (st : SyncState) : st.fs ⊆ (shSlot key st).fs := by
  intro f hf
  unfold shSlot
  dsimp only
  split
  · exact hf
  · exact List.mem_cons_of_mem _ hf

/-- The script slot guarantees the script file exists afterwards. -/
theorem shSlot_creates (key : String) (st : SyncState) :
    (⟨Dir.roms, key ++ ".sh"⟩ : FPath) ∈ pathsOf (shSlot key st).fs := by
  unfold shSlot
  dsimp only
  split
  · next h => exact fsHas_iff.mp h
  · exact List.mem_map.mpr ⟨_, List.mem_cons_self _ _, rfl⟩

/-- The script slot does not touch `valid_titles`, `files_removed` or the
`filesCreated` entries of other types. -/
theorem shSlot_frame (key : String) (st : SyncState) :
    (shSlot key st).validTitles = st.validTitles
    ∧ (shSlot key st).filesRemoved = st.filesRemoved := by
  unfold shSlot
  dsimp only
  split <;> exact ⟨rfl, rfl⟩

/-- When the script file already exists the slot does nothing at all. -/
theorem shSlot_noop (key : String) (st : SyncState)
    (h : (⟨Dir.roms, key ++ ".sh"⟩ : FPath) ∈ pathsOf st.fs) :
    shSlot key st = st := by
  unfold shSlot
  dsimp only
  rw [if_pos (fsHas_iff.mpr h)]

/-- Paths after the script slot. -/
theorem pathsOf_shSlot {key : String} {st : SyncState} {q : FPath}
    (h : q ∈ pathsOf (shSlot key st).fs) :
    q ∈ pathsOf st.fs ∨ q = ⟨Dir.roms, key ++ ".sh"⟩ := by
  by_cases hhas : fsHas st.fs (⟨Dir.roms, key ++ ".sh"⟩ : FPath) = true
  · rw [shSlot, if_pos hhas] at h
    exact Or.inl h
  · rw [shSlot] at h
    dsimp only at h
    rw [if_neg hhas] at h
    dsimp only at h
    rcases List.mem_map.mp h with ⟨f, hf, he⟩
    rcases List.mem_cons.mp hf with h1 | h1
    · subst h1
      exact Or.inr he.symm
    · exact Or.inl (he ▸ List.mem_map.mpr ⟨f, h1, rfl⟩)

/-- The logo slot never removes files. -/
theorem logoSlot_sub (w : World) (e : CatalogEntry) (key : String) (st : SyncState) :
    st.fs ⊆ (logoSlot w e key st).fs := by
  intro f hf
  unfold logoSlot
  dsimp only
  split
  · exact hf
  · split
    · exact downloadImage_sub _ _ _ _ hf
    · split
      · exact downloadImage_sub _ _ _ _ hf
      · exact hf

/-- The logo slot does not touch `valid_titles` or `files_removed`. -/
theorem logoSlot_frame (w : World) (e : CatalogEntry) (key : String) (st : SyncState) :
    (logoSlot w e key st).validTitles = st.validTitles
    ∧ (logoSlot w e key st).filesRemoved = st.filesRemoved := by
  unfold logoSlot
  dsimp only
  split
  · exact ⟨rfl, rfl⟩
  · split
    · exact ⟨rfl, rfl⟩
    · split
      · exact ⟨rfl, rfl⟩
      · exact ⟨rfl, rfl⟩

/-- When the effective logo URL succeeds, the logo file exists after the
slot. -/
theorem logoSlot_creates {w : World} {e : CatalogEntry} {u : String}
    (key : String) (st : SyncState)
    (hu : effLogoUrl e = some u) (hok : urlOk w u) :
    (⟨Dir.marquees, key ++ ".png"⟩ : FPath) ∈ pathsOf (logoSlot w e key st).fs := by
  by_cases hhas : fsHas st.fs ⟨Dir.marquees, key ++ ".png"⟩ = true
  · rw [logoSlot]
    dsimp only
    rw [if_pos hhas]
    exact fsHas_iff.mp hhas
  · rw [logoSlot]
    dsimp only
    rw [if_neg hhas]
    unfold effLogoUrl at hu
    rcases hl : pyTruthy e.images.logo with _ | u1
    · rw [hl] at hu
      dsimp only at hu
      dsimp only
      rw [hu]
      dsimp only
      exact mem_pathsOf.mpr ⟨_, downloadImage_creates _ _ hok⟩
    · rw [hl] at hu
      dsimp only at hu
      cases hu
      dsimp only
      exact mem_pathsOf.mpr ⟨_, downloadImage_creates _ _ hok⟩

/-- With no truthy Logo URI, a truthy Poster URI whose download succeeds,
and the logo file absent, the logo slot writes the poster body to the logo
path. -/
theorem logoSlot_poster_pair {w : World} {e : CatalogEntry} {u : String}
    (key : String) (st : SyncState)
    (hl : pyTruthy e.images.logo = none) (hp : pyTruthy e.images.poster = some u)
    (hok : urlOk w u)
    (habs : (⟨Dir.marquees, key ++ ".png"⟩ : FPath) ∉ pathsOf st.fs) :
    (⟨Dir.marquees, key ++ ".png"⟩, w.body (normalizeUrl u)) ∈ (logoSlot w e key st).fs := by
  rw [logoSlot]
  dsimp only
  rw [if_neg (fun hc => habs (fsHas_iff.mp hc))]
  rw [hl]
  dsimp only
  rw [hp]
  dsimp only
  exact downloadImage_creates _ _ hok

/-- When every successful source of the logo slot already has its file on
disk, the slot changes neither the filesystem nor the write count. -/
theorem logoSlot_noop {w : World} {e : CatalogEntry} (key : String) (st : SyncState)
    (h : ∀ u, effLogoUrl e = some u → urlOk w u →
      (⟨Dir.marquees, key ++ ".png"⟩ : FPath) ∈ pathsOf st.fs) :
    (logoSlot w e key st).fs = st.fs ∧ (logoSlot w e key st).writes = st.writes := by
  by_cases hhas : fsHas st.fs ⟨Dir.marquees, key ++ ".png"⟩ = true
  · rw [logoSlot]
    dsimp only
    rw [if_pos hhas]
    exact ⟨rfl, rfl⟩
  · rw [logoSlot]
    dsimp only
    rw [if_neg hhas]
    have habs : (⟨Dir.marquees, key ++ ".png"⟩ : FPath) ∉ pathsOf st.fs :=
      fun hm => hhas (fsHas_iff.mpr hm)
    rcases hl : pyTruthy e.images.logo with _ | u1
    · rcases hp : pyTruthy e.images.poster with _ | u2
      · dsimp only
        exact ⟨rfl, rfl⟩
      · have heff : effLogoUrl e = some u2 := by
          unfold effLogoUrl
          rw [hl]
          dsimp only
          exact hp
        have hnok : ¬ urlOk w u2 := fun hok => habs (h u2 heff hok)
        dsimp only
        rw [downloadImage_fail _ _ hnok]
        exact ⟨rfl, rfl⟩
    · have heff : effLogoUrl e = some u1 := by
        unfold effLogoUrl
        rw [hl]
      have hnok : ¬ urlOk w u1 := fun hok => habs (h u1 heff hok)
      dsimp only
      rw [downloadImage_fail _ _ hnok]
      exact ⟨rfl, rfl⟩

/-- Paths after the logo slot. -/
theorem pathsOf_logoSlot {w : World} {e : CatalogEntry} {key : String}
    {st : SyncState} {q : FPath}
    (h : q ∈ pathsOf (logoSlot w e key st).fs) :
    q ∈ pathsOf st.fs
    ∨ ∃ u, effLogoUrl e = some u ∧ urlOk w u ∧ q = ⟨Dir.marquees, key ++ ".png"⟩ := by
  by_cases hhas : fsHas st.fs ⟨Dir.marquees, key ++ ".png"⟩ = true
  · rw [logoSlot] at h
    dsimp only at h
    rw [if_pos hhas] at h
    exact Or.inl h
  · rw [logoSlot] at h
    dsimp only at h
    rw [if_neg hhas] at h
    rcases hl : pyTruthy e.images.logo with _ | u1
    · rcases hp : pyTruthy e.images.poster with _ | u2
      · rw [hl] at h
        dsimp only at h
        rw [hp] at h
        dsimp only at h
        exact Or.inl h
      · rw [hl] at h
        dsimp only at h
        rw [hp] at h
        dsimp only at h
        rcases pathsOf_downloadImage h with h1 | ⟨hok, rfl⟩
        · exact Or.inl h1
        · refine Or.inr ⟨u2, ?_, hok, rfl⟩
          unfold effLogoUrl
          rw [hl]
          dsimp only
          exact hp
    · rw [hl] at h
      dsimp only at h
      rcases pathsOf_downloadImage h with h1 | ⟨hok, rfl⟩
      · exact Or.inl h1
      · refine Or.inr ⟨u1, ?_, hok, rfl⟩
        unfold effLogoUrl
        rw [hl]

/-- The poster slot never removes files. -/
theorem posterSlot_sub (w : World) (e : CatalogEntry) (key : String) (st : SyncState) :
    st.fs ⊆ (posterSlot w e key st).fs := by
  intro f hf
  unfold posterSlot
  dsimp only
  split
  · split
    · exact hf
    · exact downloadImage_sub _ _ _ _ hf
  · exact hf

/-- The poster slot does not touch `valid_titles` or `files_removed`. -/
theorem posterSlot_frame (w : World) (e : CatalogEntry) (key : String) (st : SyncState) :
    (posterSlot w e key st).validTitles = st.validTitles
    ∧ (posterSlot w e key st).filesRemoved = st.filesRemoved := by
  unfold posterSlot
  dsimp only
  split
  · split
    · exact ⟨rfl, rfl⟩
    · exact ⟨rfl, rfl⟩
  · exact ⟨rfl, rfl⟩

/-- When the poster URI is truthy and succeeds, the cover file exists
after the slot. -/
theorem posterSlot_creates {w : World} {e : CatalogEntry} {u : String}
    (key : String) (st : SyncState)
    (hp : pyTruthy e.images.poster = some u) (hok : urlOk w u) :
    (⟨Dir.covers, key ++ ".png"⟩ : FPath) ∈ pathsOf (posterSlot w e key st).fs := by
  rw [posterSlot]
  dsimp only
  rw [hp]
  dsimp only
  by_cases hhas : fsHas st.fs ⟨Dir.covers, key ++ ".png"⟩ = true
  · rw [if_pos hhas]
    exact fsHas_iff.mp hhas
  · rw [if_neg hhas]
    exact mem_pathsOf.mpr ⟨_, downloadImage_creates _ _ hok⟩

/-- When every successful source of the poster slot already has its file
on disk, the slot changes neither the filesystem nor the write count. -/
theorem posterSlot_noop {w : World} {e : CatalogEntry} (key : String) (st : SyncState)
    (h : ∀ u, pyTruthy e.images.poster = some u → urlOk w u →
      (⟨Dir.covers, key ++ ".png"⟩ : FPath) ∈ pathsOf st.fs) :
    (posterSlot w e key st).fs = st.fs ∧ (posterSlot w e key st).writes = st.writes := by
  rw [posterSlot]
  dsimp only
  rcases hp : pyTruthy e.images.poster with _ | u
  · dsimp only
    exact ⟨rfl, rfl⟩
  · dsimp only
    by_cases hhas : fsHas st.fs ⟨Dir.covers, key ++ ".png"⟩ = true
    · rw [if_pos hhas]
      exact ⟨rfl, rfl⟩
    · rw [if_neg hhas]
      have hnok : ¬ urlOk w u :=
        fun hok => hhas (fsHas_iff.mpr (h u hp hok))
      rw [downloadImage_fail _ _ hnok]
      exact ⟨rfl, rfl⟩

/-- Paths after the poster slot. -/
theorem pathsOf_posterSlot {w : World} {e : CatalogEntry} {key : String}
    {st : SyncState} {q : FPath}
    (h : q ∈ pathsOf (posterSlot w e key st).fs) :
    q ∈ pathsOf st.fs
    ∨ ∃ u, pyTruthy e.images.poster = some u ∧ urlOk w u
        ∧ q = ⟨Dir.covers, key ++ ".png"⟩ := by
  rw [posterSlot] at h
  dsimp only at h
  rcases hp : pyTruthy e.images.poster with _ | u
  · rw [hp] at h
    dsimp only at h
    exact Or.inl h
  · rw [hp] at h
    dsimp only at h
    by_cases hhas : fsHas st.fs ⟨Dir.covers, key ++ ".png"⟩ = true
    · rw [if_pos hhas] at h
      exact Or.inl h
    · rw [if_neg hhas] at h
      rcases pathsOf_downloadImage h with h1 | ⟨hok, rfl⟩
      · exact Or.inl h1
      · exact Or.inr ⟨u, rfl, hok, rfl⟩

/-- The fanart slot never removes files. -/
theorem fanartSlot_sub (w : World) (e : CatalogEntry) (key : String) (st : SyncState) :
    st.fs ⊆ (fanartSlot w e key st).fs := by
  intro f hf
  unfold fanartSlot
  dsimp only
  split
  · split
    · exact hf
    · exact downloadImage_sub _ _ _ _ hf
  · exact hf

/-- The fanart slot does not touch `valid_titles` or `files_removed`. -/
theorem fanartSlot_frame (w : World) (e : CatalogEntry) (key : String) (st : SyncState) :
    (fanartSlot w e key st).validTitles = st.validTitles
    ∧ (fanartSlot w e key st).filesRemoved = st.filesRemoved := by
  unfold fanartSlot
  dsimp only
  split
  · split
    · exact ⟨rfl, rfl⟩
    · exact ⟨rfl, rfl⟩
  · exact ⟨rfl, rfl⟩

/-- When the `TitledHeroArt` slot of the image map is truthy and succeeds,
the fanart file exists after the slot. -/
theorem fanartSlot_creates {w : World} {e : CatalogEntry} {u : String}
    (key : String) (st : SyncState)
    (ht : pyTruthy e.images.titledHeroArt = some u) (hok : urlOk w u) :
    (⟨Dir.fanart, key ++ ".png"⟩ : FPath) ∈ pathsOf (fanartSlot w e key st).fs := by
  rw [fanartSlot]
  dsimp only
  rw [ht]
  dsimp only
  by_cases hhas : fsHas st.fs ⟨Dir.fanart, key ++ ".png"⟩ = true
  · rw [if_pos hhas]
    exact fsHas_iff.mp hhas
  · rw [if_neg hhas]
    exact mem_pathsOf.mpr ⟨_, downloadImage_creates _ _ hok⟩

/-- When every successful source of the fanart slot already has its file
on disk, the slot changes neither the filesystem nor the write count. -/
theorem fanartSlot_noop {w : World} {e : CatalogEntry} (key : String) (st : SyncState)
    (h : ∀ u, pyTruthy e.images.titledHeroArt = some u → urlOk w u →
      (⟨Dir.fanart, key ++ ".png"⟩ : FPath) ∈ pathsOf st.fs) :
    (fanartSlot w e key st).fs = st.fs ∧ (fanartSlot w e key st).writes = st.writes := by
  rw [fanartSlot]
  dsimp only
  rcases ht : pyTruthy e.images.titledHeroArt with _ | u
  · dsimp only
    exact ⟨rfl, rfl⟩
  · dsimp only
    by_cases hhas : fsHas st.fs ⟨Dir.fanart, key ++ ".png"⟩ = true
    · rw [if_pos hhas]
      exact ⟨rfl, rfl⟩
    · rw [if_neg hhas]
      have hnok : ¬ urlOk w u :=
        fun hok => hhas (fsHas_iff.mpr (h u ht hok))
      rw [downloadImage_fail _ _ hnok]
      exact ⟨rfl, rfl⟩

/-- Paths after the fanart slot. -/
theorem pathsOf_fanartSlot {w : World} {e : CatalogEntry} {key : String}
    {st : SyncState} {q : FPath}
    (h : q ∈ pathsOf (fanartSlot w e key st).fs) :
    q ∈ pathsOf st.fs
    ∨ ∃ u, pyTruthy e.images.titledHeroArt = some u ∧ urlOk w u
        ∧ q = ⟨Dir.fanart, key ++ ".png"⟩ := by
  rw [fanartSlot] at h
  dsimp only at h
  rcases ht : pyTruthy e.images.titledHeroArt with _ | u
  · rw [ht] at h
    dsimp only at h
    exact Or.inl h
  · rw [ht] at h
    dsimp only at h
    by_cases hhas : fsHas st.fs ⟨Dir.fanart, key ++ ".png"⟩ = true
    · rw [if_pos hhas] at h
      exact Or.inl h
    · rw [if_neg hhas] at h
      rcases pathsOf_downloadImage h with h1 | ⟨hok, rfl⟩
      · exact Or.inl h1
      · exact Or.inr ⟨u, rfl, hok, rfl⟩

/-- The video iteration never removes files. -/
theorem processVideo_sub (w : World) (st : SyncState) (e : CatalogEntry) :
    st.fs ⊆ (processVideo w st e).fs := by
  intro f hf
  unfold processVideo
  dsimp only
  split
  · split
    · exact hf
    · split
      · exact List.mem_cons_of_mem _ hf
      · exact hf
  · exact hf

/-- The video iteration does not touch `valid_titles` or `files_removed`. -/
theorem processVideo_frame (w : World) (st : SyncState) (e : CatalogEntry) :
    (processVideo w st e).validTitles = st.validTitles
    ∧ (processVideo w st e).filesRemoved = st.filesRemoved := by
  unfold processVideo
  dsimp only
  split
  · split
    · exact ⟨rfl, rfl⟩
    · split
      · exact ⟨rfl, rfl⟩
      · exact ⟨rfl, rfl⟩
  · exact ⟨rfl, rfl⟩

/-- A truthy DASH manifest with a succeeding transcode guarantees the
video file exists after the iteration. -/
theorem processVideo_creates {w : World} {e : CatalogEntry} {u : String}
    (st : SyncState)
    (hd : pyTruthy e.dash = some u) (hok : w.transcodeOk u = true) :
    (⟨Dir.videos, entryKey e ++ ".mp4"⟩ : FPath) ∈ pathsOf (processVideo w st e).fs := by
  rw [processVideo]
  dsimp only
  rw [hd]
  dsimp only
  by_cases hhas : fsHas st.fs ⟨Dir.videos, entryKey e ++ ".mp4"⟩ = true
  · rw [if_pos hhas]
    exact fsHas_iff.mp hhas
  · rw [if_neg hhas, if_pos hok]
    exact List.mem_map.mpr ⟨_, List.mem_cons_self _ _, rfl⟩

/-- When every successful video source already has its file on disk, the
iteration changes neither the filesystem nor the write count. -/
theorem processVideo_noop {w : World} {e : CatalogEntry} (st : SyncState)
    (h : ∀ u, pyTruthy e.dash = some u → w.transcodeOk u = true →
      (⟨Dir.videos, entryKey e ++ ".mp4"⟩ : FPath) ∈ pathsOf st.fs) :
    (processVideo w st e).fs = st.fs ∧ (processVideo w st e).writes = st.writes := by
  rw [processVideo]
  dsimp only
  rcases hd : pyTruthy e.dash with _ | u
  · dsimp only
    exact ⟨rfl, rfl⟩
  · dsimp only
    by_cases hhas : fsHas st.fs ⟨Dir.videos, entryKey e ++ ".mp4"⟩ = true
    · rw [if_pos hhas]
      exact ⟨rfl, rfl⟩
    · have hnok : ¬ w.transcodeOk u = true :=
        fun hok => hhas (fsHas_iff.mpr (h u hd hok))
      rw [if_neg hhas, if_neg hnok]
      exact ⟨rfl, rfl⟩

/-- Paths after the video iteration. -/
theorem pathsOf_processVideo {w : World} {e : CatalogEntry}
    {st : SyncState} {q : FPath}
    (h : q ∈ pathsOf (processVideo w st e).fs) :
    q ∈ pathsOf st.fs ∨ vidSlotOk w e q := by
  rw [processVideo] at h
  dsimp only at h
  rcases hd : pyTruthy e.dash with _ | u
  · rw [hd] at h
    dsimp only at h
    exact Or.inl h
  · rw [hd] at h
    dsimp only at h
    by_cases hhas : fsHas st.fs ⟨Dir.videos, entryKey e ++ ".mp4"⟩ = true
    · rw [if_pos hhas] at h
      exact Or.inl h
    · rw [if_neg hhas] at h
      by_cases hok : w.transcodeOk u = true
      · rw [if_pos hok] at h
        rcases List.mem_map.mp h with ⟨f, hf, he⟩
        rcases List.mem_cons.mp hf with h1 | h1
        · subst h1
          exact Or.inr ⟨u, hd, hok, he.symm⟩
        · exact Or.inl (he ▸ List.mem_map.mpr ⟨f, h1, rfl⟩)
      · rw [if_neg hok] at h
        exact Or.inl h

/-- Pair-level filesystem growth gives path-level growth. -/
theorem pathsOf_mono {fs1 fs2 : FS} (hsub : fs1 ⊆ fs2) : pathsOf fs1 ⊆ pathsOf fs2 := by
  intro p hp
  obtain ⟨c, hc⟩ := mem_pathsOf.mp hp
  exact mem_pathsOf.mpr ⟨c, hsub hc⟩

/-- `process_entry` never removes files. -/
theorem processEntry_sub (w : World) (st : SyncState) (e : CatalogEntry) :
    st.fs ⊆ (processEntry w st e).fs := by
  intro f hf
  unfold processEntry
  dsimp only
  exact fanartSlot_sub _ _ _ _ (posterSlot_sub _ _ _ _ (logoSlot_sub _ _ _ _
    (shSlot_sub _ _ hf)))

/-- `process_entry` pushes the entry's key onto `valid_titles` and changes
nothing else about it. -/
theorem processEntry_valid (w : World) (st : SyncState) (e : CatalogEntry) :
    (processEntry w st e).validTitles = entryKey e :: st.validTitles := by
  unfold processEntry
  dsimp only
  rw [(fanartSlot_frame _ _ _ _).1, (posterSlot_frame _ _ _ _).1,
    (logoSlot_frame _ _ _ _).1, (shSlot_frame _ _).1]
  rfl

/-- `process_entry` does not touch `files_removed`. -/
theorem processEntry_removed (w : World) (st : SyncState) (e : CatalogEntry) :
    (processEntry w st e).filesRemoved = st.filesRemoved := by
  unfold processEntry
  dsimp only
  rw [(fanartSlot_frame _ _ _ _).2, (posterSlot_frame _ _ _ _).2,
    (logoSlot_frame _ _ _ _).2, (shSlot_frame _ _).2]
  rfl

/-- Every successful slot of `process_entry` has its file on disk
afterwards. -/
theorem processEntry_creates (w : World) (st : SyncState) (e : CatalogEntry)
    {p : FPath} (h : imgSlotOk w e p) :
    p ∈ pathsOf (processEntry w st e).fs := by
  unfold processEntry
  dsimp only
  rcases h with rfl | ⟨u, hu, hok, rfl⟩ | ⟨u, hp, hok, rfl⟩ | ⟨u, ht, hok, rfl⟩
  · exact pathsOf_mono (fanartSlot_sub _ _ _ _)
      (pathsOf_mono (posterSlot_sub _ _ _ _)
        (pathsOf_mono (logoSlot_sub _ _ _ _) (shSlot_creates _ _)))
  · exact pathsOf_mono (fanartSlot_sub _ _ _ _)
      (pathsOf_mono (posterSlot_sub _ _ _ _) (logoSlot_creates _ _ hu hok))
  · exact pathsOf_mono (fanartSlot_sub _ _ _ _) (posterSlot_creates _ _ hp hok)
  · exact fanartSlot_creates _ _ ht hok

/-- When every successful slot of `process_entry` already has its file on
disk, the entry changes neither the filesystem nor the write count (the
counters may still move — that is claim C6's territory). -/
theorem processEntry_noop (w : World) (st : SyncState) (e : CatalogEntry)
    (h : ∀ p, imgSlotOk w e p → p ∈ pathsOf st.fs) :
    (processEntry w st e).fs = st.fs ∧ (processEntry w st e).writes = st.writes := by
  unfold processEntry
  dsimp only
  have hsh : shSlot (entryKey e) (addValid (entryKey e) st) = addValid (entryKey e) st :=
    shSlot_noop _ _ (h _ (Or.inl rfl))
  rw [hsh]
  obtain ⟨hlf, hlw⟩ := logoSlot_noop (w := w) (e := e) (entryKey e)
    (addValid (entryKey e) st)
    (fun u hu hok => h _ (Or.inr (Or.inl ⟨u, hu, hok, rfl⟩)))
  obtain ⟨hpf, hpw⟩ := posterSlot_noop (w := w) (e := e) (entryKey e)
    (logoSlot w e (entryKey e) (addValid (entryKey e) st))
    (fun u hp hok => by
      rw [hlf]
      exact h _ (Or.inr (Or.inr (Or.inl ⟨u, hp, hok, rfl⟩))))
  obtain ⟨hff, hfw⟩ := fanartSlot_noop (w := w) (e := e) (entryKey e)
    (posterSlot w e (entryKey e) (logoSlot w e (entryKey e) (addValid (entryKey e) st)))
    (fun u ht hok => by
      rw [hpf, hlf]
      exact h _ (Or.inr (Or.inr (Or.inr ⟨u, ht, hok, rfl⟩))))
  exact ⟨by rw [hff, hpf, hlf]; rfl, by rw [hfw, hpw, hlw]; rfl⟩

/-- Paths after `process_entry`: old paths or successful slots of the
entry. -/
theorem pathsOf_processEntry {w : World} {st : SyncState} {e : CatalogEntry}
    {q : FPath} (h : q ∈ pathsOf (processEntry w st e).fs) :
    q ∈ pathsOf st.fs ∨ imgSlotOk w e q := by
  unfold processEntry at h
  dsimp only at h
  rcases pathsOf_fanartSlot h with h1 | ⟨u, ht, hok, rfl⟩
  · rcases pathsOf_posterSlot h1 with h2 | ⟨u, hp, hok, rfl⟩
    · rcases pathsOf_logoSlot h2 with h3 | ⟨u, hu, hok, rfl⟩
      · rcases pathsOf_shSlot h3 with h4 | rfl
        · exact Or.inl h4
        · exact Or.inr (Or.inl rfl)
      · exact Or.inr (Or.inr (Or.inl ⟨u, hu, hok, rfl⟩))
    · exact Or.inr (Or.inr (Or.inr (Or.inl ⟨u, hp, hok, rfl⟩)))
  · exact Or.inr (Or.inr (Or.inr (Or.inr ⟨u, ht, hok, rfl⟩)))

/-- The `process_entry` stage never removes files. -/
theorem foldA_sub (w : World) (entries : List CatalogEntry) :
    ∀ st : SyncState, st.fs ⊆ (entries.foldl (processEntry w) st).fs := by
  induction entries with
  | nil => exact fun st f hf => hf
  | cons e es ih =>
      intro st f hf
      rw [List.foldl_cons]
      exact ih _ (processEntry_sub _ _ _ hf)

/-- `valid_titles` after the `process_entry` stage: the keys of the
entries pushed over the initial list — independent of the filesystem and
of the network. -/
theorem foldA_valid (w : World) (entries : List CatalogEntry) :
    ∀ st : SyncState, (entries.foldl (processEntry w) st).validTitles
      = entries.foldl (fun a e => entryKey e :: a) st.validTitles := by
  induction entries with
  | nil => exact fun st => rfl
  | cons e es ih =>
      intro st
      rw [List.foldl_cons, List.foldl_cons, ih, processEntry_valid]

/-- The `process_entry` stage does not touch `files_removed`. -/
theorem foldA_removed (w : World) (entries : List CatalogEntry) :
    ∀ st : SyncState, (entries.foldl (processEntry w) st).filesRemoved
      = st.filesRemoved := by
  induction entries with
  | nil => exact fun st => rfl
  | cons e es ih =>
      intro st
      rw [List.foldl_cons, ih, processEntry_removed]

/-- Every successful image slot of every processed entry has its file on
disk after the `process_entry` stage. -/
theorem foldA_creates (w : World) {e : CatalogEntry} {p : FPath} :
    ∀ (entries : List CatalogEntry) (st : SyncState), e ∈ entries → imgSlotOk w e p →
      p ∈ pathsOf (entries.foldl (processEntry w) st).fs := by
  intro entries
  induction entries with
  | nil => intro st he; cases he
  | cons e2 es ih =>
      intro st he hok
      rw [List.foldl_cons]
      rcases List.mem_cons.mp he with rfl | he2
      · exact pathsOf_mono (foldA_sub w es _) (processEntry_creates _ _ _ hok)
      · exact ih _ he2 hok

/-- When every successful image slot of every entry already has its file,
the `process_entry` stage changes neither the filesystem nor the write
count. -/
theorem foldA_noop (w : World) :
    ∀ (entries : List CatalogEntry) (st : SyncState),
      (∀ e ∈ entries, ∀ p, imgSlotOk w e p → p ∈ pathsOf st.fs) →
      (entries.foldl (processEntry w) st).fs = st.fs
      ∧ (entries.foldl (processEntry w) st).writes = st.writes := by
  intro entries
  induction entries with
  | nil => exact fun st h => ⟨rfl, rfl⟩
  | cons e es ih =>
      intro st h
      rw [List.foldl_cons]
      obtain ⟨hf, hw⟩ := processEntry_noop w st e (h e (List.mem_cons_self _ _))
      obtain ⟨hf2, hw2⟩ := ih (processEntry w st e)
        (fun e2 he2 p hp => by
          rw [hf]
          exact h e2 (List.mem_cons_of_mem _ he2) p hp)
      exact ⟨by rw [hf2, hf], by rw [hw2, hw]⟩

/-- Paths after the `process_entry` stage. -/
theorem pathsOf_foldA (w : World) :
    ∀ (entries : List CatalogEntry) (st : SyncState) (q : FPath),
      q ∈ pathsOf (entries.foldl (processEntry w) st).fs →
      q ∈ pathsOf st.fs ∨ ∃ e ∈ entries, imgSlotOk w e q := by
  intro entries
  induction entries with
  | nil => exact fun st q h => Or.inl h
  | cons e es ih =>
      intro st q h
      rw [List.foldl_cons] at h
      rcases ih _ _ h with h1 | ⟨e2, he2, hok⟩
      · rcases pathsOf_processEntry h1 with h2 | hok
        · exact Or.inl h2
        · exact Or.inr ⟨e, List.mem_cons_self _ _, hok⟩
      · exact Or.inr ⟨e2, List.mem_cons_of_mem _ he2, hok⟩

/-- The video stage never removes files. -/
theorem foldB_sub (w : World) (entries : List CatalogEntry) :
    ∀ st : SyncState, st.fs ⊆ (entries.foldl (processVideo w) st).fs := by
  induction entries with
  | nil => exact fun st f hf => hf
  | cons e es ih =>
      intro st f hf
      rw [List.foldl_cons]
      exact ih _ (processVideo_sub _ _ _ hf)

/-- The video stage does not touch `valid_titles`. -/
theorem foldB_valid (w : World) (entries : List CatalogEntry) :
    ∀ st : SyncState, (entries.foldl (processVideo w) st).validTitles
      = st.validTitles := by
  induction entries with
  | nil => exact fun st => rfl
  | cons e es ih =>
      intro st
      rw [List.foldl_cons, ih, (processVideo_frame _ _ _).1]

/-- The video stage does not touch `files_removed`. -/
theorem foldB_removed (w : World) (entries : List CatalogEntry) :
    ∀ st : SyncState, (entries.foldl (processVideo w) st).filesRemoved
      = st.filesRemoved := by
  induction entries with
  | nil => exact fun st => rfl
  | cons e es ih =>
      intro st
      rw [List.foldl_cons, ih, (processVideo_frame _ _ _).2]

/-- Every successful video slot of every processed entry has its file on
disk after the video stage. -/
theorem foldB_creates (w : World) {e : CatalogEntry} {p : FPath} :
    ∀ (entries : List CatalogEntry) (st : SyncState), e ∈ entries → vidSlotOk w e p →
      p ∈ pathsOf (entries.foldl (processVideo w) st).fs := by
  intro entries
  induction entries with
  | nil => intro st he; cases he
  | cons e2 es ih =>
      intro st he hok
      rw [List.foldl_cons]
      rcases List.mem_cons.mp he with rfl | he2
      · obtain ⟨u, hd, htr, rfl⟩ := hok
        exact pathsOf_mono (foldB_sub w es _) (processVideo_creates _ hd htr)
      · exact ih _ he2 hok

/-- When every successful video slot already has its file, the video stage
changes neither the filesystem nor the write count. -/
theorem foldB_noop (w : World) :
    ∀ (entries : List CatalogEntry) (st : SyncState),
      (∀ e ∈ entries, ∀ p, vidSlotOk w e p → p ∈ pathsOf st.fs) →
      (entries.foldl (processVideo w) st).fs = st.fs
      ∧ (entries.foldl (processVideo w) st).writes = st.writes := by
  intro entries
  induction entries with
  | nil => exact fun st h => ⟨rfl, rfl⟩
  | cons e es ih =>
      intro st h
      rw [List.foldl_cons]
      obtain ⟨hf, hw⟩ := processVideo_noop (w := w) (e := e) st
        (fun u hd htr => h e (List.mem_cons_self _ _) _ ⟨u, hd, htr, rfl⟩)
      obtain ⟨hf2, hw2⟩ := ih (processVideo w st e)
        (fun e2 he2 p hp => by
          rw [hf]
          exact h e2 (List.mem_cons_of_mem _ he2) p hp)
      exact ⟨by rw [hf2, hf], by rw [hw2, hw]⟩

/-- Paths after the video stage. -/
theorem pathsOf_foldB (w : World) :
    ∀ (entries : List CatalogEntry) (st : SyncState) (q : FPath),
      q ∈ pathsOf (entries.foldl (processVideo w) st).fs →
      q ∈ pathsOf st.fs ∨ ∃ e ∈ entries, vidSlotOk w e q := by
  intro entries
  induction entries with
  | nil => exact fun st q h => Or.inl h
  | cons e es ih =>
      intro st q h
      rw [List.foldl_cons] at h
      rcases ih _ _ h with h1 | ⟨e2, he2, hok⟩
      · rcases pathsOf_processVideo h1 with h2 | hok
        · exact Or.inl h2
        · exact Or.inr ⟨e, List.mem_cons_self _ _, hok⟩
      · exact Or.inr ⟨e2, List.mem_cons_of_mem _ he2, hok⟩

/-- Every list element's key ends up in the accumulated key list. -/
theorem foldKeys_sub :
    ∀ (entries : List CatalogEntry) (acc : List String),
      acc ⊆ entries.foldl (fun a e => entryKey e :: a) acc := by
  intro entries
  induction entries with
  | nil => exact fun acc x hx => hx
  | cons e es ih =>
      intro acc x hx
      rw [List.foldl_cons]
      exact ih _ (List.mem_cons_of_mem _ hx)

/-- The key of every processed entry is in the accumulated key list. -/
theorem foldKeys_mem :
    ∀ (entries : List CatalogEntry) (acc : List String) (e : CatalogEntry),
      e ∈ entries → entryKey e ∈ entries.foldl (fun a e => entryKey e :: a) acc := by
  intro entries
  induction entries with
  | nil => intro acc e he; cases he
  | cons e2 es ih =>
      intro acc e he
      rw [List.foldl_cons]
      rcases List.mem_cons.mp he with rfl | he2
      · exact foldKeys_sub es _ (List.mem_cons_self _ _)
      · exact ih _ e he2

/-- The removal fold filters out exactly the killed files. -/
theorem foldl_pruneStep_fst (valid : List String) (d : Dir) (ext : String)
    (ns : List String) (acc : FS × Nat) :
    (ns.foldl (pruneStep valid d ext) acc).1
      = acc.1.filter (fun f => !killed valid d ext ns f.1) := by
  induction ns generalizing acc with
  | nil => simp [killed]
  | cons n ns ih =>
      rw [List.foldl_cons, ih]
      by_cases h : orphanName valid ext n = true
      · rw [show pruneStep valid d ext acc n = (removeFile acc.1 ⟨d, n⟩, acc.2 + 1) from by
          simp [pruneStep, h]]
        show (removeFile acc.1 ⟨d, n⟩).filter _ = _
        rw [removeFile, List.filter_filter]
        apply List.filter_congr
        intro f _
        simp [killed, List.any_cons, h, decide_not, Bool.not_or, Bool.and_comm]
      · rw [show pruneStep valid d ext acc n = acc from by simp [pruneStep, h]]
        apply List.filter_congr
        intro f _
        simp [killed, List.any_cons, h]

/-- The removal fold counts exactly the orphaned names of the listing. -/
theorem foldl_pruneStep_snd (valid : List String) (d : Dir) (ext : String)
    (ns : List String) (acc : FS × Nat) :
    (ns.foldl (pruneStep valid d ext) acc).2
      = acc.2 + ns.countP (orphanName valid ext) := by
  induction ns generalizing acc with
  | nil => simp
  | cons n ns ih =>
      rw [List.foldl_cons, ih]
      by_cases h : orphanName valid ext n = true
      · simp [pruneStep, h, List.countP_cons]
        omega
      · simp [pruneStep, h, List.countP_cons]

/-- One removal loop leaves exactly the kept files, in order. -/
theorem pruneDirFs_fst (valid : List String) (d : Dir) (ext : String) (fs : FS) :
    (pruneDirFs valid d ext fs).1 = fs.filter (keepFile valid d ext) := by
  unfold pruneDirFs
  rw [foldl_pruneStep_fst]
  apply List.filter_congr
  rintro ⟨⟨fd, fn⟩, c⟩ hf
  unfold keepFile
  congr 1
  by_cases hd : fd = d
  · by_cases ho : orphanName valid ext fn = true
    · have hk : killed valid d ext (listdir fs d) ⟨fd, fn⟩ = true := by
        rw [killed, List.any_eq_true]
        exact ⟨fn, List.mem_filterMap.mpr ⟨⟨⟨fd, fn⟩, c⟩, hf, by simp [hd]⟩,
          by simp [ho, hd]⟩
      rw [hk]
      simp [hd, ho]
    · have hk : killed valid d ext (listdir fs d) ⟨fd, fn⟩ = false := by
        rw [killed]
        apply List.any_eq_false.mpr
        intro n hn
        by_cases hh : fn = n
        · subst hh
          simp [ho]
        · simp [FPath.mk.injEq, hh]
      rw [hk]
      simp [hd, ho]
  · have hk : killed valid d ext (listdir fs d) ⟨fd, fn⟩ = false := by
      rw [killed]
      apply List.any_eq_false.mpr
      intro n hn
      simp [FPath.mk.injEq, hd]
    rw [hk]
    simp [hd]

/-- One removal loop's count, in terms of its input directory listing. -/
theorem pruneDirFs_snd (valid : List String) (d : Dir) (ext : String) (fs : FS) :
    (pruneDirFs valid d ext fs).2 = (listdir fs d).countP (orphanName valid ext) := by
  unfold pruneDirFs
  rw [foldl_pruneStep_snd]
  simp

/-- The directory listing counted against the orphan test, as a count over
the whole filesystem. -/
theorem countP_listdir (valid : List String) (d : Dir) (ext : String) (fs : FS) :
    (listdir fs d).countP (orphanName valid ext)
      = fs.countP (fun f => decide (f.1.dir = d) && orphanName valid ext f.1.name) := by
  induction fs with
  | nil => rfl
  | cons f fs ih =>
      by_cases hd : f.1.dir = d
      · simp [listdir, List.filterMap_cons, hd, List.countP_cons] at *
        rw [ih]
      · simp [listdir, List.filterMap_cons, hd, List.countP_cons] at *
        rw [ih]

/-- Removal loops over one directory do not change the listing of any
other directory. -/
theorem listdir_pruneDirFs {dd d : Dir} (hne : dd ≠ d)
    (valid : List String) (ext : String) (fs : FS) :
    listdir (pruneDirFs valid d ext fs).1 dd = listdir fs dd := by
  rw [pruneDirFs_fst]
  induction fs with
  | nil => rfl
  | cons f fs ih =>
      by_cases hk : keepFile valid d ext f = true
      · by_cases hd : f.1.dir = dd
        · simp [List.filter_cons, hk, listdir, List.filterMap_cons, hd] at *
          exact ih
        · simp [List.filter_cons, hk, listdir, List.filterMap_cons, hd] at *
          exact ih
      · have hfd : f.1.dir = d := by
          by_contra hcon
          exact hk (by simp [keepFile, hcon])
        have hdd : ¬ f.1.dir = dd := by rw [hfd]; exact fun h => hne h.symm
        simp [List.filter_cons, hk, listdir, List.filterMap_cons, hdd] at *
        exact ih

/-- Membership after one removal loop. -/
theorem mem_pruneDirFs {valid : List String} {d : Dir} {ext : String} {fs : FS}
    {f : FPath × String} :
    f ∈ (pruneDirFs valid d ext fs).1
      ↔ f ∈ fs ∧ ¬(f.1.dir = d ∧ orphanName valid ext f.1.name = true) := by
  rw [pruneDirFs_fst, List.mem_filter]
  unfold keepFile
  constructor
  · rintro ⟨h1, h2⟩
    refine ⟨h1, ?_⟩
    rintro ⟨hd, ho⟩
    simp [hd, ho] at h2
  · rintro ⟨h1, h2⟩
    refine ⟨h1, ?_⟩
    by_cases hd : f.1.dir = d
    · have ho : orphanName valid ext f.1.name = false := by
        rcases Bool.eq_false_or_eq_true (orphanName valid ext f.1.name) with h | h
        · exact absurd (⟨hd, h⟩ : _ ∧ _) h2
        · exact h
      simp [hd, ho]
    · simp [hd]

/-- A loop whose directory holds no orphans does nothing. -/
theorem pruneDirFs_noop {valid : List String} {d : Dir} {ext : String} {fs : FS}
    (h : ∀ f ∈ fs, f.1.dir = d → orphanName valid ext f.1.name = false) :
    pruneDirFs valid d ext fs = (fs, 0) := by
  have h1 : (pruneDirFs valid d ext fs).1 = fs := by
    rw [pruneDirFs_fst]
    apply List.filter_eq_self.mpr
    intro f hf
    unfold keepFile
    by_cases hd : f.1.dir = d
    · simp [hd, h f hf hd]
    · simp [hd]
  have h2 : (pruneDirFs valid d ext fs).2 = 0 := by
    rw [pruneDirFs_snd]
    apply List.countP_eq_zero.mpr
    intro n hn
    obtain ⟨f, hf, he⟩ := List.mem_filterMap.mp hn
    by_cases hd : f.1.dir = d
    · simp only [hd, if_pos] at he
      cases he
      simp [h f hf hd]
    · simp [hd] at he
  calc pruneDirFs valid d ext fs
      = ((pruneDirFs valid d ext fs).1, (pruneDirFs valid d ext fs).2) := rfl
    _ = (fs, 0) := by rw [h1, h2]

/-- Membership after the whole pruning stage. -/
theorem mem_pruneStage {valid : List String} {st : SyncState} {f : FPath × String} :
    f ∈ (pruneStage valid st).fs ↔ f ∈ st.fs ∧ ¬ isOrphanFile valid f.1 := by
  show f ∈ (pruneDirFs valid Dir.fanart ".png"
      (pruneDirFs valid Dir.covers ".png"
        (pruneDirFs valid Dir.marquees ".png"
          (pruneDirFs valid Dir.roms ".sh" st.fs).1).1).1).1 ↔ _
  rw [mem_pruneDirFs, mem_pruneDirFs, mem_pruneDirFs, mem_pruneDirFs]
  unfold isOrphanFile
  tauto

/-- The pruning stage does not touch the write count. -/
theorem pruneStage_writes (valid : List String) (st : SyncState) :
    (pruneStage valid st).writes = st.writes := rfl

/-- A filesystem with no orphans is left untouched by the pruning stage,
with nothing counted. -/
theorem pruneStage_noop {valid : List String} {st : SyncState}
    (h : ∀ f ∈ st.fs, ¬ isOrphanFile valid f.1) :
    (pruneStage valid st).fs = st.fs
    ∧ (pruneStage valid st).filesRemoved = st.filesRemoved := by
  have h1 : pruneDirFs valid Dir.roms ".sh" st.fs = (st.fs, 0) :=
    pruneDirFs_noop (fun f hf hd => by
      rcases Bool.eq_false_or_eq_true (orphanName valid ".sh" f.1.name) with hb | hb
      · exact absurd (Or.inl ⟨hd, hb⟩) (h f hf)
      · exact hb)
  have h2 : pruneDirFs valid Dir.marquees ".png" st.fs = (st.fs, 0) :=
    pruneDirFs_noop (fun f hf hd => by
      rcases Bool.eq_false_or_eq_true (orphanName valid ".png" f.1.name) with hb | hb
      · exact absurd (Or.inr (Or.inl ⟨hd, hb⟩)) (h f hf)
      · exact hb)
  have h3 : pruneDirFs valid Dir.covers ".png" st.fs = (st.fs, 0) :=
    pruneDirFs_noop (fun f hf hd => by
      rcases Bool.eq_false_or_eq_true (orphanName valid ".png" f.1.name) with hb | hb
      · exact absurd (Or.inr (Or.inr (Or.inl ⟨hd, hb⟩))) (h f hf)
      · exact hb)
  have h4 : pruneDirFs valid Dir.fanart ".png" st.fs = (st.fs, 0) :=
    pruneDirFs_noop (fun f hf hd => by
      rcases Bool.eq_false_or_eq_true (orphanName valid ".png" f.1.name) with hb | hb
      · exact absurd (Or.inr (Or.inr (Or.inr ⟨hd, hb⟩))) (h f hf)
      · exact hb)
  have e1 : (pruneDirFs valid Dir.roms ".sh" st.fs).1 = st.fs := by rw [h1]
  have c1 : (pruneDirFs valid Dir.roms ".sh" st.fs).2 = 0 := by rw [h1]
  have e2 : (pruneDirFs valid Dir.marquees ".png" st.fs).1 = st.fs := by rw [h2]
  have c2 : (pruneDirFs valid Dir.marquees ".png" st.fs).2 = 0 := by rw [h2]
  have e3 : (pruneDirFs valid Dir.covers ".png" st.fs).1 = st.fs := by rw [h3]
  have c3 : (pruneDirFs valid Dir.covers ".png" st.fs).2 = 0 := by rw [h3]
  have e4 : (pruneDirFs valid Dir.fanart ".png" st.fs).1 = st.fs := by rw [h4]
  have c4 : (pruneDirFs valid Dir.fanart ".png" st.fs).2 = 0 := by rw [h4]
  constructor
  · show (pruneDirFs valid Dir.fanart ".png"
        (pruneDirFs valid Dir.covers ".png"
          (pruneDirFs valid Dir.marquees ".png"
            (pruneDirFs valid Dir.roms ".sh" st.fs).1).1).1).1 = st.fs
    rw [e1, e2, e3, e4]
  · show (⟨st.filesRemoved.sh + (pruneDirFs valid Dir.roms ".sh" st.fs).2,
        st.filesRemoved.logo
          + (pruneDirFs valid Dir.marquees ".png"
              (pruneDirFs valid Dir.roms ".sh" st.fs).1).2,
        st.filesRemoved.poster
          + (pruneDirFs valid Dir.covers ".png"
              (pruneDirFs valid Dir.marquees ".png"
                (pruneDirFs valid Dir.roms ".sh" st.fs).1).1).2,
        st.filesRemoved.fanart
          + (pruneDirFs valid Dir.fanart ".png"
              (pruneDirFs valid Dir.covers ".png"
                (pruneDirFs valid Dir.marquees ".png"
                  (pruneDirFs valid Dir.roms ".sh" st.fs).1).1).1).2⟩ : Removed)
      = st.filesRemoved
    rw [e1, e2, e3]
    rw [c1, c2, c3, c4]
    simp

/-- C5.  The pruning stage deletes exactly the files of the four swept
directories that carry the expected extension and whose filename-derived
key is absent from `valid_titles`, leaves every other file untouched, and
counts each removal in the per-type `files_removed` entry: membership in
the pruned filesystem is membership before minus the orphans, and each
counter grows by the number of orphaned files of its directory. -/
theorem c5_prune_exact (valid : List String) (st : SyncState) :
    (∀ (p : FPath) (c : String),
        ((p, c) ∈ (pruneStage valid st).fs ↔ (p, c) ∈ st.fs ∧ ¬ isOrphanFile valid p))
    ∧ (pruneStage valid st).filesRemoved.sh
        = st.filesRemoved.sh
          + st.fs.countP (fun f => decide (f.1.dir = Dir.roms) && orphanName valid ".sh" f.1.name)
    ∧ (pruneStage valid st).filesRemoved.logo
        = st.filesRemoved.logo
          + st.fs.countP (fun f => decide (f.1.dir = Dir.marquees) && orphanName valid ".png" f.1.name)
    ∧ (pruneStage valid st).filesRemoved.poster
        = st.filesRemoved.poster
          + st.fs.countP (fun f => decide (f.1.dir = Dir.covers) && orphanName valid ".png" f.1.name)
    ∧ (pruneStage valid st).filesRemoved.fanart
        = st.filesRemoved.fanart
          + st.fs.countP (fun f => decide (f.1.dir = Dir.fanart) && orphanName valid ".png" f.1.name) := by
  refine ⟨fun p c => mem_pruneStage, ?_, ?_, ?_, ?_⟩
  · show st.filesRemoved.sh + (pruneDirFs valid Dir.roms ".sh" st.fs).2 = _
    rw [pruneDirFs_snd, countP_listdir]
  · show st.filesRemoved.logo
        + (pruneDirFs valid Dir.marquees ".png"
            (pruneDirFs valid Dir.roms ".sh" st.fs).1).2 = _
    rw [pruneDirFs_snd,
      listdir_pruneDirFs (show Dir.marquees ≠ Dir.roms by decide),
      countP_listdir]
  · show st.filesRemoved.poster
        + (pruneDirFs valid Dir.covers ".png"
            (pruneDirFs valid Dir.marquees ".png"
              (pruneDirFs valid Dir.roms ".sh" st.fs).1).1).2 = _
    rw [pruneDirFs_snd,
      listdir_pruneDirFs (show Dir.covers ≠ Dir.marquees by decide),
      listdir_pruneDirFs (show Dir.covers ≠ Dir.roms by decide),
      countP_listdir]
  · show st.filesRemoved.fanart
        + (pruneDirFs valid Dir.fanart ".png"
            (pruneDirFs valid Dir.covers ".png"
              (pruneDirFs valid Dir.marquees ".png"
                (pruneDirFs valid Dir.roms ".sh" st.fs).1).1).1).2 = _
    rw [pruneDirFs_snd,
      listdir_pruneDirFs (show Dir.fanart ≠ Dir.covers by decide),
      listdir_pruneDirFs (show Dir.fanart ≠ Dir.marquees by decide),
      listdir_pruneDirFs (show Dir.fanart ≠ Dir.roms by decide),
      countP_listdir]

/-- C10.  The pruning stage never removes files from the videos directory:
a file whose path lies in `videos/` is in the pruned filesystem exactly
when it was there before, whatever `valid_titles` contains — the source
has removal loops only for the script, marquee, cover and fanart
directories, and `files_removed` has no video key. -/
theorem c10_videos_never_pruned (valid : List String) (st : SyncState)
    (f : FPath × String) (hd : f.1.dir = Dir.videos) :
    (f ∈ (pruneStage valid st).fs ↔ f ∈ st.fs) := by
  rw [mem_pruneStage]
  constructor
  · exact fun h => h.1
  · intro h
    refine ⟨h, ?_⟩
    rintro (⟨h1, -⟩ | ⟨h1, -⟩ | ⟨h1, -⟩ | ⟨h1, -⟩) <;> rw [hd] at h1 <;>
      exact absurd h1 (by decide)

/-- C10, witness: a concrete stale video file (its key is in no catalog)
survives pruning. -/
theorem c10_videos_witness :
    ((⟨⟨Dir.videos, "OLD.mp4"⟩, "v"⟩ : FPath × String)
        ∈ (pruneStage [] (initState [⟨⟨Dir.videos, "OLD.mp4"⟩, "v"⟩])).fs
      ↔ (⟨⟨Dir.videos, "OLD.mp4"⟩, "v"⟩ : FPath × String)
        ∈ (initState [⟨⟨Dir.videos, "OLD.mp4"⟩, "v"⟩]).fs) :=
  c10_videos_never_pruned [] (initState [⟨⟨Dir.videos, "OLD.mp4"⟩, "v"⟩])
    ⟨⟨Dir.videos, "OLD.mp4"⟩, "v"⟩ rfl

/-- C1, counterexample.  The claim says a pass with a cached payload and a
fetch timestamp younger than 24 hours returns the cached payload without
contacting the network.  The source stores no fetch timestamp at all and
never reads `additional_data.json` before overwriting it: with a cached
payload present and a posited fetch age of 1 hour (1 < 24, i.e. fresh by
the claim's own criterion), the catalog stage still contacts the network
and returns the freshly fetched catalog, which differs from the cached
one. -/
theorem c1_cache_counterexample :
    (catalogStage true demoDiscovery demoDetails (some cachedCatalog)).2 = true
    ∧ (catalogStage true demoDiscovery demoDetails (some cachedCatalog)).1
        = .ok [extractEntry demoProduct]
    ∧ [extractEntry demoProduct] ≠ cachedCatalog
    ∧ (1 : Nat) < 24 := by
  refine ⟨rfl, rfl, ?_, by norm_num⟩
  decide

/-- C1, amended.  Every reconciliation pass (with ffmpeg available)
unconditionally refetches from the discovery and details endpoints: the
network is contacted on every pass, and the catalog the pass uses is
independent of any previously cached payload — no fetch timestamp exists
and no freshness check is performed. -/
theorem c1_always_refetches
    (discovery : Except String (List (Option String)))
    (details : String → Except String (List RawProduct))
    (prior : Option (List CatalogEntry)) :
    (catalogStage true discovery details prior).2 = true
    ∧ catalogStage true discovery details prior
        = catalogStage true discovery details none := by
  refine ⟨?_, rfl⟩
  cases discovery with
  | error e => rfl
  | ok items =>
      rcases h : details (String.intercalate "," (items.filterMap id)) with e | ps
      · simp [catalogStage, fetchIds, h]
      · simp [catalogStage, fetchIds, h]

/-- C2: evaluation at the failing input.  When the catalog fetch fails
(here: the discovery request raises `"timeout"`), the body of `main` is an
error carrying exactly that description — but `main` swallows it
(`error_message` is only logged), so `SyncWorker.run` still emits the
`finished` (success) signal instead of a failed outcome. -/
theorem c2_error_swallowed :
    mainBody true (.error "timeout") demoDetails none allFail [] = .error "timeout"
    ∧ mainRun (mainBody true (.error "timeout") demoDetails none allFail [])
        = .returned (some "timeout")
    ∧ syncWorkerRun (mainBody true (.error "timeout") demoDetails none allFail [])
        = Outcome.finished := ⟨rfl, rfl, rfl⟩

/-- Reachability is preserved by prepending a step. -/
theorem SchedReach.head {a b c : Sched} (h : SchedStep a b) (h2 : SchedReach b c) :
    SchedReach a c := by
  induction h2 with
  | refl => exact .step (.refl a) h
  | step _ h4 ih => exact .step ih h4

/-- Any number of task starts can be performed in sequence: from `p + k`
pending and `i` in flight, the state with `p` pending and `i + k` in
flight is reachable. -/
theorem sched_starts (k p i d : Nat) :
    SchedReach ⟨p + k, i, d⟩ ⟨p, i + k, d⟩ := by
  induction k generalizing i with
  | zero => exact .refl _
  | succ k ih =>
      have h1 : SchedStep ⟨p + (k + 1), i, d⟩ ⟨p + k, i + 1, d⟩ :=
        SchedStep.start (p + k) i d
      have h2 : SchedReach ⟨p + k, i + 1, d⟩ ⟨p, i + 1 + k, d⟩ := ih (i + 1)
      have h3 : i + 1 + k = i + (k + 1) := by omega
      exact SchedReach.head h1 (h3 ▸ h2)

/-- C3, counterexample.  With 100 planned download tasks, the download
stage launched by `asyncio.gather` — which contains no semaphore, worker
pool, or any ceiling of 20 — can reach a state with 21 requests
simultaneously in flight, and 21 exceeds 20. -/
theorem c3_bound_counterexample :
    SchedReach ⟨100, 0, 0⟩ ⟨79, 21, 0⟩ ∧ 20 < 21 :=
  ⟨sched_starts 21 79 0 0, by norm_num⟩

/-- C3, amended.  The download stage places no application-level bound on
the number of simultaneously in-flight requests: for every number `n` of
planned tasks, the state in which all `n` requests are in flight at once
is reachable. -/
theorem c3_unbounded_fanout (n : Nat) : SchedReach ⟨n, 0, 0⟩ ⟨0, n, 0⟩ := by
  have := sched_starts n 0 0 0
  simpa using this

/-- C6: evaluation at the failing input.  Processing `logoOnlyEntry` in a
world where every image request answers 404: `download_image` creates no
file (the only real write is the launch script), yet `process_entry`
increments `files_created["logo"]` to 1 — the counter does not equal the
number of logo files created. -/
theorem c6_counter_without_file :
    (processEntry allFail (initState []) logoOnlyEntry).filesCreated.logo = 1
    ∧ (⟨Dir.marquees, "A.png"⟩ : FPath)
        ∉ pathsOf (processEntry allFail (initState []) logoOnlyEntry).fs
    ∧ (processEntry allFail (initState []) logoOnlyEntry).writes = 1 := by
  refine ⟨rfl, ?_, rfl⟩
  decide

/-- C7, counterexample.  The claim says an empty title string is
normalized as the literal `"Unknown"`; the normalizer actually maps the
empty string to the empty string (the `"Unknown"` default in
`entry.get("ProductTitle", "Unknown")` applies only when the field is
absent, not when it is empty). -/
theorem c7_empty_title_counterexample :
    sanitizeTitle "" = "" ∧ ("" : String) ≠ "Unknown" := by
  exact ⟨rfl, by decide⟩

/-- C7, amended.  The key normalizer is a pure, total, deterministic
function on title strings whose output is the uppercase of its input with
every character outside `[A-Za-z0-9]` removed; the empty string normalizes
to the empty string (not `"Unknown"`); `"Forza Horizon 5!"` normalizes to
`"FORZAHORIZON5"`; the literal `"Unknown"` participates only as the
default for a record with no `ProductTitle` field, and is itself
sanitized, yielding the key `"UNKNOWN"`. -/
theorem c7_normalizer_amended (t : String) :
    sanitizeTitle t = sanitizeTitle t
    ∧ (sanitizeTitle t).data = (t.data.filter Char.isAlphanum).map Char.toUpper
    ∧ sanitizeTitle "" = ""
    ∧ sanitizeTitle "Forza Horizon 5!" = "FORZAHORIZON5"
    ∧ entryKey ⟨none, none, none, none, none, CatalogImages.empty, none⟩ = "UNKNOWN" :=
  ⟨rfl, rfl, rfl, by decide, by decide⟩

/-- Every successful slot of every catalog entry has its file on disk
after both stages of a pass. -/
theorem stages_create (w : World) (entries : List CatalogEntry) (fs0 : FS) :
    ∀ e ∈ entries, ∀ p, slotOk w e p →
      p ∈ pathsOf (entries.foldl (processVideo w)
        (entries.foldl (processEntry w) (initState fs0))).fs := by
  intro e he p hp
  rcases hp with himg | hvid
  · exact pathsOf_mono (foldB_sub w entries _) (foldA_creates w entries _ he himg)
  · exact foldB_creates w entries _ he hvid

/-- The key of every catalog entry is in `valid_titles` after both
stages. -/
theorem stages_keys (w : World) (entries : List CatalogEntry) (fs0 : FS) :
    ∀ e ∈ entries, entryKey e ∈ (entries.foldl (processVideo w)
      (entries.foldl (processEntry w) (initState fs0))).validTitles := by
  intro e he
  rw [foldB_valid, foldA_valid]
  exact foldKeys_mem entries _ e he

/-- A successful slot's destination is never an orphan of a `valid_titles`
list containing its entry's key. -/
theorem slot_not_orphan {w : World} {e : CatalogEntry} {p : FPath}
    {valid : List String} (hkey : entryKey e ∈ valid) (hp : slotOk w e p) :
    ¬ isOrphanFile valid p := by
  intro ho2
  unfold isOrphanFile at ho2
  rcases hp with (rfl | ⟨u, -, -, rfl⟩ | ⟨u, -, -, rfl⟩ | ⟨u, -, -, rfl⟩) | ⟨u, -, -, rfl⟩
  · rcases ho2 with ⟨-, ho⟩ | ⟨hd, -⟩ | ⟨hd, -⟩ | ⟨hd, -⟩
    · rw [orphanName_append_valid ".sh" hkey] at ho
      simp at ho
    · simp at hd
    · simp at hd
    · simp at hd
  · rcases ho2 with ⟨hd, -⟩ | ⟨-, ho⟩ | ⟨hd, -⟩ | ⟨hd, -⟩
    · simp at hd
    · rw [orphanName_append_valid ".png" hkey] at ho
      simp at ho
    · simp at hd
    · simp at hd
  · rcases ho2 with ⟨hd, -⟩ | ⟨hd, -⟩ | ⟨-, ho⟩ | ⟨hd, -⟩
    · simp at hd
    · simp at hd
    · rw [orphanName_append_valid ".png" hkey] at ho
      simp at ho
    · simp at hd
  · rcases ho2 with ⟨hd, -⟩ | ⟨hd, -⟩ | ⟨hd, -⟩ | ⟨-, ho⟩
    · simp at hd
    · simp at hd
    · simp at hd
    · rw [orphanName_append_valid ".png" hkey] at ho
      simp at ho
  · rcases ho2 with ⟨hd, -⟩ | ⟨hd, -⟩ | ⟨hd, -⟩ | ⟨hd, -⟩ <;> simp at hd

/-- Every successful slot of every catalog entry has its file on disk at
the end of a full pass: the entry's key is in `valid_titles`, so pruning
spares it. -/
theorem runPass_creates (w : World) (entries : List CatalogEntry) (fs0 : FS) :
    ∀ e ∈ entries, ∀ p, slotOk w e p → p ∈ pathsOf (runPass w entries fs0).fs := by
  intro e he p hp
  obtain ⟨c, hc⟩ := mem_pathsOf.mp (stages_create w entries fs0 e he p hp)
  refine mem_pathsOf.mpr ⟨c, ?_⟩
  show (p, c) ∈ (pruneStage
    ((entries.foldl (processVideo w) (entries.foldl (processEntry w) (initState fs0))).validTitles)
    (entries.foldl (processVideo w) (entries.foldl (processEntry w) (initState fs0)))).fs
  exact mem_pruneStage.mpr ⟨hc, slot_not_orphan (stages_keys w entries fs0 e he) hp⟩

/-- C4.  Running reconciliation twice against an unchanged catalog,
unchanged network/transcoder behavior and unchanged filesystem performs
zero file writes and zero removals on the second pass, and leaves the
filesystem literally identical — in particular no artifact file present at
its canonical path is ever overwritten. -/
theorem c4_idempotent_second_pass (w : World) (entries : List CatalogEntry) (fs0 : FS) :
    (runPass w entries (runPass w entries fs0).fs).writes = 0
    ∧ (runPass w entries (runPass w entries fs0).fs).filesRemoved = ⟨0, 0, 0, 0⟩
    ∧ (runPass w entries (runPass w entries fs0).fs).fs = (runPass w entries fs0).fs := by
  obtain ⟨hA2f, hA2w⟩ := foldA_noop w entries (initState (runPass w entries fs0).fs)
    (fun e he p hp => runPass_creates w entries fs0 e he p (Or.inl hp))
  obtain ⟨hB2f, hB2w⟩ := foldB_noop w entries
    (entries.foldl (processEntry w) (initState (runPass w entries fs0).fs))
    (fun e he p hp => by
      rw [hA2f]
      exact runPass_creates w entries fs0 e he p (Or.inr hp))
  have hvalid2 : (entries.foldl (processVideo w)
        (entries.foldl (processEntry w) (initState (runPass w entries fs0).fs))).validTitles
      = (entries.foldl (processVideo w)
        (entries.foldl (processEntry w) (initState fs0))).validTitles := by
    rw [foldB_valid, foldA_valid, foldB_valid, foldA_valid]
    rfl
  have hno : ∀ f ∈ (entries.foldl (processVideo w)
        (entries.foldl (processEntry w) (initState (runPass w entries fs0).fs))).fs,
      ¬ isOrphanFile ((entries.foldl (processVideo w)
        (entries.foldl (processEntry w) (initState (runPass w entries fs0).fs))).validTitles) f.1 := by
    intro f hf
    rw [hB2f, hA2f] at hf
    rw [hvalid2]
    exact (mem_pruneStage.mp (show f ∈ (pruneStage
      ((entries.foldl (processVideo w) (entries.foldl (processEntry w) (initState fs0))).validTitles)
      (entries.foldl (processVideo w) (entries.foldl (processEntry w) (initState fs0)))).fs
      from hf)).2
  obtain ⟨hpf, hpr⟩ := pruneStage_noop hno
  refine ⟨?_, ?_, ?_⟩
  · show (entries.foldl (processVideo w)
      (entries.foldl (processEntry w) (initState (runPass w entries fs0).fs))).writes = 0
    rw [hB2w, hA2w]
    rfl
  · show (pruneStage
      ((entries.foldl (processVideo w)
        (entries.foldl (processEntry w) (initState (runPass w entries fs0).fs))).validTitles)
      (entries.foldl (processVideo w)
        (entries.foldl (processEntry w) (initState (runPass w entries fs0).fs)))).filesRemoved
      = (⟨0, 0, 0, 0⟩ : Removed)
    rw [hpr, foldB_removed, foldA_removed]
    rfl
  · show (pruneStage
      ((entries.foldl (processVideo w)
        (entries.foldl (processEntry w) (initState (runPass w entries fs0).fs))).validTitles)
      (entries.foldl (processVideo w)
        (entries.foldl (processEntry w) (initState (runPass w entries fs0).fs)))).fs
      = (runPass w entries fs0).fs
    rw [hpf, hB2f, hA2f]
    rfl

/-- C8.  A non-200 image response creates no file and does not abort the
pass: (a) `download_image` leaves the filesystem untouched on any non-200
status; (b) every other successful slot — scripts and images of all
entries — is still fulfilled at the end of the pass; (c) no path appears
at the end of a pass except pre-existing files and successful slots, so
the failed asset's slot (absent initially, no successful source) stays
unfulfilled. -/
theorem c8_failure_isolation :
    (∀ (w : World) (url : String) (p : FPath) (fs : FS),
        w.status (normalizeUrl url) ≠ 200 → downloadImage w url p fs = (fs, 0))
    ∧ (∀ (w : World) (entries : List CatalogEntry) (fs0 : FS)
        (e : CatalogEntry) (p : FPath),
        e ∈ entries → slotOk w e p → p ∈ pathsOf (runPass w entries fs0).fs)
    ∧ (∀ (w : World) (entries : List CatalogEntry) (fs0 : FS) (p : FPath),
        p ∈ pathsOf (runPass w entries fs0).fs →
        p ∈ pathsOf fs0 ∨ ∃ e ∈ entries, slotOk w e p) := by
  refine ⟨?_, ?_, ?_⟩
  · intro w url p fs h
    exact downloadImage_fail p fs h
  · intro w entries fs0 e p he hp
    exact runPass_creates w entries fs0 e he p hp
  · intro w entries fs0 p hp
    have h1 : p ∈ pathsOf (entries.foldl (processVideo w)
        (entries.foldl (processEntry w) (initState fs0))).fs := by
      obtain ⟨c, hc⟩ := mem_pathsOf.mp hp
      have hm := mem_pruneStage.mp (show (p, c) ∈ (pruneStage
        ((entries.foldl (processVideo w)
          (entries.foldl (processEntry w) (initState fs0))).validTitles)
        (entries.foldl (processVideo w)
          (entries.foldl (processEntry w) (initState fs0)))).fs from hc)
      exact mem_pathsOf.mpr ⟨c, hm.1⟩
    rcases pathsOf_foldB w entries _ p h1 with h2 | ⟨e, he, hv⟩
    · rcases pathsOf_foldA w entries _ p h2 with h3 | ⟨e, he, hi⟩
      · exact Or.inl h3
      · exact Or.inr ⟨e, he, Or.inl hi⟩
    · exact Or.inr ⟨e, he, Or.inr hv⟩

/-- C8, witness: in a world where only `entryA`'s poster URL answers 404,
the failing download writes nothing, yet `entryB`'s cover and `entryA`'s
script are fulfilled at the end of the pass. -/
theorem c8_failure_isolation_witness :
    downloadImage mixedWorld "http://bad/404.png" ⟨Dir.covers, "A.png"⟩ [] = ([], 0)
    ∧ (⟨Dir.covers, "B.png"⟩ : FPath)
        ∈ pathsOf (runPass mixedWorld [entryA, entryB] []).fs
    ∧ ((⟨Dir.roms, "A.sh"⟩ : FPath) ∈ pathsOf ([] : FS)
        ∨ ∃ e ∈ [entryA, entryB], slotOk mixedWorld e ⟨Dir.roms, "A.sh"⟩) :=
  ⟨c8_failure_isolation.1 mixedWorld "http://bad/404.png" ⟨Dir.covers, "A.png"⟩ []
      (by decide),
   c8_failure_isolation.2.1 mixedWorld [entryA, entryB] [] entryB ⟨Dir.covers, "B.png"⟩
      (by simp)
      (Or.inl (Or.inr (Or.inr (Or.inl ⟨"http://ok/B.png", rfl,
        (by decide : mixedWorld.status (normalizeUrl "http://ok/B.png") = 200),
        by decide⟩)))),
   c8_failure_isolation.2.2 mixedWorld [entryA, entryB] [] ⟨Dir.roms, "A.sh"⟩
      (by decide)⟩

/-- Images with neither `TitledHeroArt` nor `SuperHeroArt` purpose leave
the `TitledHeroArt` slot of the accumulator unchanged. -/
theorem extractAux_preserve (acc : CatalogImages) (found : Bool) :
    ∀ imgs : List RawImage,
      (∀ i ∈ imgs, i.purpose ≠ some "TitledHeroArt") →
      (∀ i ∈ imgs, i.purpose ≠ some "SuperHeroArt") →
      (extractImagesAux acc found imgs).titledHeroArt = acc.titledHeroArt := by
  intro imgs
  induction imgs generalizing acc found with
  | nil => intro h1 h2; rfl
  | cons i rest ih =>
      intro h1 h2
      have hnt := h1 i (List.mem_cons_self _ _)
      have hns := h2 i (List.mem_cons_self _ _)
      have h1r := fun j hj => h1 j (List.mem_cons_of_mem _ hj)
      have h2r := fun j hj => h2 j (List.mem_cons_of_mem _ hj)
      simp only [extractImagesAux]
      by_cases c1 : i.purpose = some "Logo"
      · rw [if_pos c1]
        exact ih _ _ h1r h2r
      · rw [if_neg c1]
        by_cases c2 : i.purpose = some "Poster"
        · rw [if_pos c2]
          exact ih _ _ h1r h2r
        · rw [if_neg c2]
          by_cases c3 : i.purpose = some "BoxArt"
          · rw [if_pos c3]
            exact ih _ _ h1r h2r
          · rw [if_neg c3, if_neg hnt, if_neg (fun hh => hns hh.1)]
            exact ih _ _ h1r h2r

/-- Once the `titled_hero_found` flag is set, a list without further
`TitledHeroArt` images leaves the `TitledHeroArt` slot unchanged — in
particular every later `SuperHeroArt` image is skipped. -/
theorem extractAux_found_titled (acc : CatalogImages) :
    ∀ imgs : List RawImage,
      (∀ i ∈ imgs, i.purpose ≠ some "TitledHeroArt") →
      (extractImagesAux acc true imgs).titledHeroArt = acc.titledHeroArt := by
  intro imgs
  induction imgs generalizing acc with
  | nil => intro h1; rfl
  | cons i rest ih =>
      intro h1
      have hnt := h1 i (List.mem_cons_self _ _)
      have h1r := fun j hj => h1 j (List.mem_cons_of_mem _ hj)
      simp only [extractImagesAux]
      by_cases c1 : i.purpose = some "Logo"
      · rw [if_pos c1]
        exact ih _ h1r
      · rw [if_neg c1]
        by_cases c2 : i.purpose = some "Poster"
        · rw [if_pos c2]
          exact ih _ h1r
        · rw [if_neg c2]
          by_cases c3 : i.purpose = some "BoxArt"
          · rw [if_pos c3]
            exact ih _ h1r
          · rw [if_neg c3, if_neg hnt, if_neg (fun hh => absurd hh.2 (by decide))]
            exact ih _ h1r

/-- Whatever one image does, extraction over a cons is extraction over the
tail from some accumulator and flag. -/
theorem extractAux_cons_exists (acc : CatalogImages) (found : Bool)
    (i : RawImage) (rest : List RawImage) :
    ∃ acc2 found2,
      extractImagesAux acc found (i :: rest) = extractImagesAux acc2 found2 rest := by
  simp only [extractImagesAux]
  by_cases c1 : i.purpose = some "Logo"
  · rw [if_pos c1]
    exact ⟨_, _, rfl⟩
  · rw [if_neg c1]
    by_cases c2 : i.purpose = some "Poster"
    · rw [if_pos c2]
      exact ⟨_, _, rfl⟩
    · rw [if_neg c2]
      by_cases c3 : i.purpose = some "BoxArt"
      · rw [if_pos c3]
        exact ⟨_, _, rfl⟩
      · rw [if_neg c3]
        by_cases c4 : i.purpose = some "TitledHeroArt"
        · rw [if_pos c4]
          exact ⟨_, _, rfl⟩
        · rw [if_neg c4]
          by_cases c5 : i.purpose = some "SuperHeroArt" ∧ found = false
          · rw [if_pos c5]
            exact ⟨_, _, rfl⟩
          · rw [if_neg c5]
            exact ⟨_, _, rfl⟩

/-- When the head image is not a `TitledHeroArt`, the `titled_hero_found`
flag is unchanged by it. -/
theorem extractAux_cons_exists_nt (acc : CatalogImages) (found : Bool)
    (i : RawImage) (rest : List RawImage) (hnt : i.purpose ≠ some "TitledHeroArt") :
    ∃ acc2, extractImagesAux acc found (i :: rest) = extractImagesAux acc2 found rest := by
  simp only [extractImagesAux]
  by_cases c1 : i.purpose = some "Logo"
  · rw [if_pos c1]
    exact ⟨_, rfl⟩
  · rw [if_neg c1]
    by_cases c2 : i.purpose = some "Poster"
    · rw [if_pos c2]
      exact ⟨_, rfl⟩
    · rw [if_neg c2]
      by_cases c3 : i.purpose = some "BoxArt"
      · rw [if_pos c3]
        exact ⟨_, rfl⟩
      · rw [if_neg c3, if_neg hnt]
        split
        · exact ⟨_, rfl⟩
        · exact ⟨_, rfl⟩

/-- If any image has purpose `TitledHeroArt` — regardless of where in the
list it appears — the extracted `TitledHeroArt` slot is the URI of one of
the `TitledHeroArt` images. -/
theorem extractAux_titled (acc : CatalogImages) (found : Bool) :
    ∀ imgs : List RawImage,
      (∃ i ∈ imgs, i.purpose = some "TitledHeroArt") →
      ∃ i ∈ imgs, i.purpose = some "TitledHeroArt"
        ∧ (extractImagesAux acc found imgs).titledHeroArt = i.uri := by
  intro imgs
  induction imgs generalizing acc found with
  | nil =>
      rintro ⟨i, hi, -⟩
      cases hi
  | cons i rest ih =>
      intro hex
      by_cases hrest : ∃ j ∈ rest, j.purpose = some "TitledHeroArt"
      · obtain ⟨acc2, found2, heq⟩ := extractAux_cons_exists acc found i rest
        rw [heq]
        obtain ⟨j, hj, hjp, hjr⟩ := ih acc2 found2 hrest
        exact ⟨j, List.mem_cons_of_mem _ hj, hjp, hjr⟩
      · have hi : i.purpose = some "TitledHeroArt" := by
          obtain ⟨j, hj, hjp⟩ := hex
          rcases List.mem_cons.mp hj with rfl | hj2
          · exact hjp
          · exact absurd ⟨j, hj2, hjp⟩ hrest
        have c1 : ¬ i.purpose = some "Logo" := by
          rw [hi]
          simp
        have c2 : ¬ i.purpose = some "Poster" := by
          rw [hi]
          simp
        have c3 : ¬ i.purpose = some "BoxArt" := by
          rw [hi]
          simp
        simp only [extractImagesAux]
        rw [if_neg c1, if_neg c2, if_neg c3, if_pos hi]
        refine ⟨i, List.mem_cons_self _ _, hi, ?_⟩
        exact extractAux_found_titled _ rest
          (fun j hj hjp => hrest ⟨j, hj, hjp⟩)

/-- With no `TitledHeroArt` purpose anywhere and at least one
`SuperHeroArt` image, the extracted `TitledHeroArt` slot is the URI of one
of the `SuperHeroArt` images (the fallback). -/
theorem extractAux_super (acc : CatalogImages) :
    ∀ imgs : List RawImage,
      (∀ i ∈ imgs, i.purpose ≠ some "TitledHeroArt") →
      (∃ i ∈ imgs, i.purpose = some "SuperHeroArt") →
      ∃ i ∈ imgs, i.purpose = some "SuperHeroArt"
        ∧ (extractImagesAux acc false imgs).titledHeroArt = i.uri := by
  intro imgs
  induction imgs generalizing acc with
  | nil =>
      rintro - ⟨i, hi, -⟩
      cases hi
  | cons i rest ih =>
      intro hnt hex
      have hntHead := hnt i (List.mem_cons_self _ _)
      have hntRest := fun j hj => hnt j (List.mem_cons_of_mem _ hj)
      by_cases hrest : ∃ j ∈ rest, j.purpose = some "SuperHeroArt"
      · obtain ⟨acc2, heq⟩ := extractAux_cons_exists_nt acc false i rest hntHead
        rw [heq]
        obtain ⟨j, hj, hjp, hjr⟩ := ih acc2 hntRest hrest
        exact ⟨j, List.mem_cons_of_mem _ hj, hjp, hjr⟩
      · have hi : i.purpose = some "SuperHeroArt" := by
          obtain ⟨j, hj, hjp⟩ := hex
          rcases List.mem_cons.mp hj with rfl | hj2
          · exact hjp
          · exact absurd ⟨j, hj2, hjp⟩ hrest
        have c1 : ¬ i.purpose = some "Logo" := by
          rw [hi]
          simp
        have c2 : ¬ i.purpose = some "Poster" := by
          rw [hi]
          simp
        have c3 : ¬ i.purpose = some "BoxArt" := by
          rw [hi]
          simp
        simp only [extractImagesAux]
        rw [if_neg c1, if_neg c2, if_neg c3, if_neg hntHead,
          if_pos (show i.purpose = some "SuperHeroArt" ∧ True from ⟨hi, trivial⟩)]
        refine ⟨i, List.mem_cons_self _ _, hi, ?_⟩
        exact extractAux_preserve _ false rest hntRest
          (fun j hj hjp => hrest ⟨j, hj, hjp⟩)

/-- C9.  (a) A record with no truthy Logo URI but a truthy Poster URI has
its logo artifact produced from the Poster URI: when the download succeeds
and the logo file was absent, the marquee file is written with the poster
response body.  (b) The fanart source selection: whenever any image with
purpose `TitledHeroArt` is present — in any position — the extracted
`TitledHeroArt` slot (which feeds the fanart download) comes from a
`TitledHeroArt` image; a `SuperHeroArt` URI is used only when no
`TitledHeroArt` purpose was present. -/
theorem c9_artwork_fallbacks :
    (∀ (w : World) (st : SyncState) (e : CatalogEntry) (u : String),
        pyTruthy e.images.logo = none → pyTruthy e.images.poster = some u →
        urlOk w u →
        (⟨Dir.marquees, entryKey e ++ ".png"⟩ : FPath) ∉ pathsOf st.fs →
        (⟨Dir.marquees, entryKey e ++ ".png"⟩, w.body (normalizeUrl u))
          ∈ (processEntry w st e).fs)
    ∧ (∀ imgs : List RawImage,
        ((∃ i ∈ imgs, i.purpose = some "TitledHeroArt") →
          ∃ i ∈ imgs, i.purpose = some "TitledHeroArt"
            ∧ (extractImages imgs).titledHeroArt = i.uri)
        ∧ ((∀ i ∈ imgs, i.purpose ≠ some "TitledHeroArt") →
           (∃ i ∈ imgs, i.purpose = some "SuperHeroArt") →
           ∃ i ∈ imgs, i.purpose = some "SuperHeroArt"
             ∧ (extractImages imgs).titledHeroArt = i.uri)) := by
  constructor
  · intro w st e u hl hp hok habs
    unfold processEntry
    dsimp only
    have habs2 : (⟨Dir.marquees, entryKey e ++ ".png"⟩ : FPath)
        ∉ pathsOf (shSlot (entryKey e) (addValid (entryKey e) st)).fs := by
      intro hmem
      rcases pathsOf_shSlot hmem with h1 | h1
      · exact habs h1
      · simp [FPath.mk.injEq] at h1
    exact fanartSlot_sub _ _ _ _ (posterSlot_sub _ _ _ _
      (logoSlot_poster_pair _ _ hl hp hok habs2))
  · intro imgs
    exact ⟨extractAux_titled CatalogImages.empty false imgs,
      extractAux_super CatalogImages.empty imgs⟩

/-- C9, witness: entry `C` (no logo, protocol-relative poster) gets its
marquee file written with the poster body, and a `TitledHeroArt` image
listed after a `SuperHeroArt` image still wins the fanart slot. -/
theorem c9_artwork_fallbacks_witness :
    ((⟨Dir.marquees, "C.png"⟩ : FPath), mixedWorld.body (normalizeUrl "//img/c.png"))
      ∈ (processEntry mixedWorld (initState []) entryC).fs
    ∧ ∃ i ∈ [superFirstImg, titledSecondImg], i.purpose = some "TitledHeroArt"
        ∧ (extractImages [superFirstImg, titledSecondImg]).titledHeroArt = i.uri :=
  ⟨c9_artwork_fallbacks.1 mixedWorld (initState []) entryC "//img/c.png"
      rfl rfl (by decide : mixedWorld.status (normalizeUrl "//img/c.png") = 200)
      (by decide),
   (c9_artwork_fallbacks.2 [superFirstImg, titledSecondImg]).1
      ⟨titledSecondImg, by simp, rfl⟩⟩

end XSync
